import Mathlib

/-!
Verification development for the webchat repository.

The definitions below are a shallow embedding of the authenticated
streaming-response pipeline:

* the SSE chat-stream consumer of src/ui/widget/chat/Chat.vue
  (sendStreamingMessage and its helpers processBuffer, processPayload,
  appendContent, ensureAssistantMessage, upsertAssistantFiles,
  normalizeStreamAttachmentFile, the connect handler),
* the token store / session coordinator of src/store/auth-store.ts
  (persistTokens, clearPersistence, hasValidAccessToken,
  hasValidRefreshToken, refreshTokens, authorizedFetch),
* the axios response interceptor of src/api/instance.ts
  (the 401 refresh-and-retry logic with its queue), and
* the history hydration generation guard of Chat.vue
  (hydrateHistoryMessages / revokeObjectUrls).

JavaScript dynamic values that have passed through JSON.parse are
modelled by the inductive type JVal; browser built-ins (URL resolution,
fetch success, URL.createObjectURL freshness) are parameters of the
embedding, collected in StreamEnv. Machine time (Date.now()) is an
explicit Int argument.
-/

namespace WebChat

/-- JSON values as produced by JSON.parse. Numbers are modelled as Int,
which is enough for every field the chat stream code reads. -/
inductive JVal where
  | jnull
  | jbool (b : Bool)
  | jnum (n : Int)
  | jstr (s : String)
  | jarr (items : List JVal)
  | jobj (fields : List (String × JVal))

/-- JavaScript truthiness of a JSON value (NaN does not arise from the
payload fields the code inspects). -/
def truthy : JVal → Bool
  | .jnull => false
  | .jbool b => b
  | .jnum n => n != 0
  | .jstr s => s != ""
  | .jarr _ => true
  | .jobj _ => true

/-- The check x && typeof x === 'object': true exactly for objects and
arrays (null is typeof 'object' but falsy, so it is excluded). -/
def isObjectLike : JVal → Bool
  | .jobj _ => true
  | .jarr _ => true
  | _ => false

/-- Property access o.k for a named key: on objects the last binding wins
(JSON.parse keeps the last duplicate key); arrays and primitives have no
named string properties that the code reads. -/
def jget : JVal → String → Option JVal
  | .jobj fs, k => fs.foldl (fun acc p => if p.1 = k then some p.2 else acc) none
  | _, _ => none

/-- The 'k' in o membership test on an object or array operand
(on an array a named key is absent). -/
def jhas (v : JVal) (k : String) : Bool :=
  (jget v k).isSome

/-- The idiom typeof x === 'string' ? x : '' applied to a field. -/
def getStrField (v : JVal) (k : String) : String :=
  match jget v k with
  | some (.jstr s) => s
  | _ => ""

/-- JavaScript String.prototype.trim: strips leading and trailing
whitespace. Implemented over the character list so that it reduces in
the kernel. -/
def jsTrim (s : String) : String :=
  ⟨((s.data.dropWhile Char.isWhitespace).reverse.dropWhile Char.isWhitespace).reverse⟩

/-- JavaScript String.prototype.startsWith. -/
def strStartsWith (s pre : String) : Bool :=
  pre.data.isPrefixOf s.data

/-- A resolved attachment rendered by deep-chat: name, mime category
('image' / 'audio' / 'any') and src. Mirrors MessageFile as the stream
code constructs it. -/
structure MessageFile where
  name : String
  ftype : String
  src : String
  deriving Repr, DecidableEq

/-- Browser/environment parameters of the stream consumer:
isProtectedUrl embeds isProtectedAttachmentUrl (an origin and path
check through the URL constructor), resolveUrl embeds
resolveAttachmentUrl on an already-trimmed nonempty input (new
URL(trimmed, apiBaseForResolution).toString(), or the input itself when
URL parsing fails - in both cases a nonempty string, recorded by
resolve_ne), fetchOk tells whether the authorized download of a URL
succeeds with response.ok, and fallbackMsg is the localized
t('chat.errors.stream') text. -/
structure StreamEnv where
  isProtectedUrl : String → Bool
  resolveUrl : String → String
  fetchOk : String → Bool
  fallbackMsg : String
  resolve_ne : ∀ s : String, resolveUrl s ≠ ""

/-- inferStreamFileType from Chat.vue. -/
def inferStreamFileType (contentType : String) : String :=
  if contentType = "" then "any"
  else if strStartsWith contentType "image/" then "image"
  else if strStartsWith contentType "audio/" then "audio"
  else "any"

/-- normalizeStreamAttachmentFile from Chat.vue. The counter models the
browser guarantee that each URL.createObjectURL call mints a fresh,
previously unused blob URL (rendered here as "blob:" ++ counter); a
successful authorized fetch of a protected download_url consumes one
fresh URL. Returns the normalized file (none when no src could be
determined) together with the advanced counter. -/
def normalizeStreamAttachmentFile (env : StreamEnv) (attachment : JVal) (counter : Nat) :
    Option MessageFile × Nat :=
  let filenameRaw := jsTrim (getStrField attachment "filename")
  let contentType := getStrField attachment "content_type"
  let downloadUrl := jsTrim (getStrField attachment "download_url")
  let dataBase64 := jsTrim (getStrField attachment "data_base64")
  let name := if filenameRaw = "" then "attachment" else filenameRaw
  let resolved : Option String × Nat :=
    if downloadUrl ≠ "" then
      let absoluteUrl := env.resolveUrl downloadUrl
      if absoluteUrl ≠ "" then
        if env.isProtectedUrl absoluteUrl then
          if env.fetchOk absoluteUrl then (some ("blob:" ++ toString counter), counter + 1)
          else (none, counter)
        else (some absoluteUrl, counter)
      else (none, counter)
    else (none, counter)
  let src :=
    match resolved.1 with
    | some s => some s
    | none =>
      if dataBase64 ≠ "" then
        let mime := if contentType = "" then "application/octet-stream" else contentType
        some ("data:" ++ mime ++ ";base64," ++ dataBase64)
      else none
  match src with
  | none => (none, resolved.2)
  | some s => (some ⟨name, inferStreamFileType contentType, s⟩, resolved.2)

/-- Payloads delivered to signals.onResponse by the stream consumer.
A message payload carries role, the full accumulated text, the file list
(empty list standing for an absent files field) and the overwrite flag
(false standing for an absent overwrite field, which only the very first
emission has). The complete constructor is the final empty update
onResponse with an empty object, and errorSignal is onResponse with an
error field (emitted by the connect handler catch block). -/
inductive Resp where
  | message (role : String) (text : String) (files : List MessageFile) (overwrite : Bool)
  | complete
  | errorSignal (msg : String)
  deriving Repr, DecidableEq

/-- The mutable local state of one sendStreamingMessage call:
assistantText, hasAssistantMessage, assistantRole, streamingFinished,
the insertion-ordered assistantFileMap (assistantFiles always mirrors
its values via syncAssistantFiles, so it is derived rather than
stored), the fresh-blob-URL counter, and the log of onResponse calls. -/
structure StreamSt where
  assistantText : String
  hasAssistantMessage : Bool
  assistantRole : Option String
  streamingFinished : Bool
  fileMap : List (String × MessageFile)
  urlCounter : Nat
  responses : List Resp
  deriving Repr, DecidableEq

/-- The initial stream state of sendStreamingMessage. -/
def initStreamSt : StreamSt :=
  ⟨"", false, none, false, [], 0, []⟩

/-- Map.has on the insertion-ordered association list. -/
def mapHas (m : List (String × MessageFile)) (k : String) : Bool :=
  m.any (fun p => p.1 = k)

/-- One iteration of the upsertAssistantFiles loop body for a candidate
entry; the Bool accumulator is the changed flag. -/
def upsertOne (env : StreamEnv) (acc : StreamSt × Bool) (candidate : JVal) : StreamSt × Bool :=
  let st := acc.1
  let changed := acc.2
  if ¬ isObjectLike candidate then acc
  else
    match normalizeStreamAttachmentFile env candidate st.urlCounter with
    | (none, c2) => ({ st with urlCounter := c2 }, changed)
    | (some normalized, c2) =>
      let idOk :=
        match jget candidate "id" with
        | some (.jstr s) => jsTrim s != ""
        | _ => false
      let key :=
        if idOk then jsTrim (getStrField candidate "id")
        else if normalized.src ≠ "" then normalized.src
        else normalized.name ++ "-" ++ toString st.fileMap.length
      if mapHas st.fileMap key then ({ st with urlCounter := c2 }, changed)
      else ({ st with urlCounter := c2, fileMap := st.fileMap ++ [(key, normalized)] }, true)

/-- upsertAssistantFiles from Chat.vue: candidateList is the (optional)
attachments field; a non-array is ignored. Returns the updated state and
the changed flag. -/
def upsertAssistantFiles (env : StreamEnv) (candidateList : Option JVal) (st : StreamSt) :
    StreamSt × Bool :=
  match candidateList with
  | some (.jarr items) => items.foldl (upsertOne env) (st, false)
  | _ => (st, false)

/-- appendContent from Chat.vue, loop body for one part of an array
content: appends the part text when it is a nonempty string or an
object-like value with a nonempty string text field. -/
def appendPart (acc : String × Bool) (part : JVal) : String × Bool :=
  match part with
  | .jstr s => if s = "" then acc else (acc.1 ++ s, true)
  | _ =>
    if isObjectLike part then
      match jget part "text" with
      | some (.jstr t) => if t = "" then acc else (acc.1 ++ t, true)
      | _ => acc
    else acc

/-- appendContent from Chat.vue: takes the current assistantText and the
content value, returns the new assistantText and whether anything was
appended. -/
def appendContent (text : String) (content : JVal) : String × Bool :=
  match content with
  | .jstr s => if s = "" then (text, false) else (text ++ s, true)
  | .jarr parts => parts.foldl appendPart (text, false)
  | _ =>
    if isObjectLike content then
      match jget content "text" with
      | some (.jstr t) => if t = "" then (text, false) else (text ++ t, true)
      | _ => (text, false)
    else (text, false)

/-- ensureAssistantMessage from Chat.vue: emits the current message
state through signals.onResponse. The files field is present only when
assistantFiles is nonempty (an empty list here models its absence); the
overwrite field is set exactly when hasAssistantMessage was already
true. -/
def ensureAssistantMessage (st : StreamSt) : StreamSt :=
  let files := st.fileMap.map (fun p => p.2)
  let resp := Resp.message (st.assistantRole.getD "assistant") st.assistantText files
      st.hasAssistantMessage
  { st with responses := st.responses ++ [resp], hasAssistantMessage := true }

/-- Accumulator of the choices loop in processPayload: the stream state
plus the chunkHasContent and chunkHasRoleHint flags. -/
structure ChunkAcc where
  st : StreamSt
  hasContent : Bool
  hasRoleHint : Bool
  deriving Repr

/-- The delta block of the for-choice loop in processPayload: a truthy
delta contributes a role hint (delta.role, a nonempty string; the hint
flag is raised only while no message has been emitted yet) and, when a
content field is present, appends its text. Using the in operator on a
truthy primitive delta raises a TypeError in JavaScript, modelled by
Except.error. -/
def deltaStep (acc : ChunkAcc) (choice : JVal) : Except String ChunkAcc :=
  match jget choice "delta" with
  | none => .ok acc
  | some d =>
    if truthy d then
      match d with
      | .jobj _ =>
        let acc1 :=
          match jget d "role" with
          | some (.jstr r) =>
            if r ≠ "" then
              { acc with
                  st := { acc.st with assistantRole := some r },
                  hasRoleHint := acc.hasRoleHint || !acc.st.hasAssistantMessage }
            else acc
          | _ => acc
        if jhas d "content" then
          let res := appendContent acc1.st.assistantText ((jget d "content").getD .jnull)
          .ok { acc1 with
              st := { acc1.st with assistantText := res.1 },
              hasContent := res.2 || acc1.hasContent }
        else .ok acc1
      | .jarr _ => .ok acc
      | _ => .error "TypeError: cannot use in operator"
    else .ok acc

/-- The message block of the for-choice loop in processPayload: a
message object with a content field appends its text; a truthy
primitive message makes the in operator throw. -/
def msgStep (acc : ChunkAcc) (choice : JVal) : Except String ChunkAcc :=
  match jget choice "message" with
  | none => .ok acc
  | some m =>
    if truthy m then
      match m with
      | .jobj _ =>
        if jhas m "content" then
          let res := appendContent acc.st.assistantText ((jget m "content").getD .jnull)
          .ok { acc with
              st := { acc.st with assistantText := res.1 },
              hasContent := res.2 || acc.hasContent }
        else .ok acc
      | .jarr _ => .ok acc
      | _ => .error "TypeError: cannot use in operator"
    else .ok acc

/-- One iteration of the for-choice loop of processPayload: non-object
choices are skipped; otherwise the delta block runs, then the message
block. -/
def processChoice (acc : ChunkAcc) (choice : JVal) : Except String ChunkAcc :=
  if ¬ isObjectLike choice then .ok acc
  else
    match deltaStep acc choice with
    | .error e => .error e
    | .ok acc1 => msgStep acc1 choice

/-- The for-of loop over choices in processPayload. -/
def processChoices (acc : ChunkAcc) : List JVal → Except String ChunkAcc
  | [] => .ok acc
  | c :: rest =>
    match processChoice acc c with
    | .error e => .error e
    | .ok acc1 => processChoices acc1 rest

/-- The choices field of a payload: Array.isArray(payload.choices) ?
payload.choices : []. -/
def choicesOf (payload : JVal) : List JVal :=
  match jget payload "choices" with
  | some (.jarr cs) => cs
  | _ => []

/-- The part of processPayload after the error check: the attachment
metadata merge, the choices loop, and the conditional emission
(exactly when the chunk contributed content, contributed files, or -
before any emission - contributed a role hint). -/
def processPayloadBody (env : StreamEnv) (st : StreamSt) (payload : JVal) :
    Except String StreamSt :=
  let metaRes :=
    match jget payload "message_metadata" with
    | some m =>
      if isObjectLike m then upsertAssistantFiles env (jget m "attachments") st
      else (st, false)
    | none => (st, false)
  match processChoices ⟨metaRes.1, false, false⟩ (choicesOf payload) with
  | .error e => .error e
  | .ok acc =>
    .ok (if acc.hasContent || metaRes.2 || (!acc.st.hasAssistantMessage && acc.hasRoleHint)
      then ensureAssistantMessage acc.st
      else acc.st)

/-- processPayload from Chat.vue. An in-band error payload (or a
TypeError from a malformed choice) is a thrown exception, modelled by
Except.error carrying the thrown message; an error field that holds a
truthy object aborts with error.message when that is a string that is
nonempty after trimming, and with the localized fallback text
otherwise. -/
def processPayload (env : StreamEnv) (st : StreamSt) (payload : JVal) :
    Except String StreamSt :=
  if ¬ isObjectLike payload then .ok st
  else
    match jget payload "error" with
    | some e =>
      if isObjectLike e then
        Except.error
          (match jget e "message" with
          | some (.jstr m) => if jsTrim m ≠ "" then m else env.fallbackMsg
          | _ => env.fallbackMsg)
      else processPayloadBody env st payload
    | none => processPayloadBody env st payload

/-- One data: line of the event stream, after the SSE framing has been
stripped: the [DONE] sentinel, a line whose JSON.parse fails (an empty
data line, which the loop also skips before parsing, behaves
identically and is represented by the same constructor), or a parsed
payload. -/
inductive DataLine where
  | done
  | malformed
  | payload (v : JVal)

/-- The per-line dispatch of processBuffer: [DONE] sets
streamingFinished and stops all further processing, a malformed line is
logged and skipped, a parsed payload goes through processPayload. Once
streamingFinished is set no later line is applied (the while loop
guards on it). -/
def processDataLines (env : StreamEnv) (st : StreamSt) : List DataLine → Except String StreamSt
  | [] => .ok st
  | l :: rest =>
    if st.streamingFinished then .ok st
    else
      match l with
      | .done => processDataLines env { st with streamingFinished := true } rest
      | .malformed => processDataLines env st rest
      | .payload v =>
        match processPayload env st v with
        | .error e => .error e
        | .ok st2 => processDataLines env st2 rest

/-- The end-of-stream epilogue of sendStreamingMessage: if text was
accumulated but never emitted, emit once more; then send the final
empty update. -/
def finishStream (st : StreamSt) : StreamSt :=
  let st2 :=
    if st.assistantText ≠ "" && !st.hasAssistantMessage then ensureAssistantMessage st
    else st
  { st2 with responses := st2.responses ++ [Resp.complete] }

/-- The whole successful-response path of sendStreamingMessage at the
data-line level: process every line, then run the epilogue. A thrown
error (in-band error payload or TypeError) aborts the run. -/
def runStream (env : StreamEnv) (lines : List DataLine) : Except String StreamSt :=
  match processDataLines env initStreamSt lines with
  | .error e => .error e
  | .ok st => .ok (finishStream st)

/-- The catch block of the connect handler in defineConnectFn for a
non-abort error: it logs, surfaces the error message as a single
onResponse error payload, and touches no session state (the auth store
argument is returned unchanged because the block never mentions it). -/
def handleStreamFailure {Session : Type} (session : Session) (message : String) :
    Session × Resp :=
  (session, Resp.errorSignal message)

/-- The message emissions among the logged onResponse calls. -/
def messageEmissions (rs : List Resp) : List Resp :=
  rs.filter (fun r => match r with | .message _ _ _ _ => true | _ => false)

/-! ## Token store and session coordinator (src/store/auth-store.ts) -/

/-- TOKEN_EXPIRY_BUFFER_MS from auth-store.ts. -/
def TOKEN_EXPIRY_BUFFER_MS : Int := 5000

/-- TokenResponse as returned by the auth backend. -/
structure TokenResponse where
  access_token : String
  refresh_token : String
  expires_in : Int
  refresh_expires_in : Int
  deriving Repr, DecidableEq

/-- The auth store state: the four reactive token/expiry refs, the
profile ref (abstracted to its identity), the four localStorage slots
they are persisted to (an expiry slot holds the integer written by
writeNumber; String(n) followed by Number.parseInt(raw, 10) is the
identity on integers, so the slot is modelled as the integer itself),
the single-flight refreshPromise (the id of the in-flight promise),
a counter of issued promise ids, a counter of refresh network calls
(AuthApi.refresh invocations), the sessionStatus flag maintained by
updateAuthenticationState (true = authenticated), and the log of
window events dispatched by emitEvent. -/
structure AuthSt where
  accessToken : Option String
  refreshToken : Option String
  accessTokenExpiresAt : Option Int
  refreshTokenExpiresAt : Option Int
  profile : Option String
  storedAccess : Option String
  storedRefresh : Option String
  storedAccessExp : Option Int
  storedRefreshExp : Option Int
  refreshPromiseId : Option Nat
  nextPromiseId : Nat
  refreshNetworkCalls : Nat
  sessionStatus : Bool
  events : List String
  deriving Repr, DecidableEq

/-- serializeToken from auth-store.ts: token ? token.trim() : null,
where a null or empty input is falsy. -/
def serializeToken (token : Option String) : Option String :=
  match token with
  | some t => if t = "" then none else some (jsTrim t)
  | none => none

/-- JavaScript truthiness of a nullable string ref. -/
def tokenTruthy : Option String → Bool
  | some t => t != ""
  | none => false

/-- hasValidAccessToken from auth-store.ts: both the token ref and the
expiry ref must be truthy (a null, empty-string or zero value fails the
guard), and the expiry must exceed now by more than the buffer. -/
def hasValidAccessToken (now : Int) (s : AuthSt) : Bool :=
  match s.accessToken, s.accessTokenExpiresAt with
  | some t, some e => t != "" && e != 0 && decide (e - now > TOKEN_EXPIRY_BUFFER_MS)
  | _, _ => false

/-- hasValidRefreshToken from auth-store.ts. -/
def hasValidRefreshToken (now : Int) (s : AuthSt) : Bool :=
  match s.refreshToken, s.refreshTokenExpiresAt with
  | some t, some e => t != "" && e != 0 && decide (e - now > TOKEN_EXPIRY_BUFFER_MS)
  | _, _ => false

/-- updateAuthenticationState from auth-store.ts (the console logging is
omitted; the status recomputation is kept). -/
def updateAuthenticationState (now : Int) (s : AuthSt) : AuthSt :=
  { s with sessionStatus := hasValidAccessToken now s || hasValidRefreshToken now s }

/-- persistTokens from auth-store.ts: serializes both tokens, computes
expiresAt = now + max(lifetime seconds * 1000 - BUFFER, BUFFER) for each
pair, writes truthy tokens (and removes falsy ones) in localStorage,
writes both expiry numbers, and recomputes the session status. The
applyAxiosDefaults side effect (a default Authorization header) is not
represented. -/
def persistTokens (now : Int) (tokens : TokenResponse) (s : AuthSt) : AuthSt :=
  let access := serializeToken (some tokens.access_token)
  let refresh := serializeToken (some tokens.refresh_token)
  let accessExpiryMs := max (tokens.expires_in * 1000 - TOKEN_EXPIRY_BUFFER_MS)
      TOKEN_EXPIRY_BUFFER_MS
  let refreshExpiryMs := max (tokens.refresh_expires_in * 1000 - TOKEN_EXPIRY_BUFFER_MS)
      TOKEN_EXPIRY_BUFFER_MS
  let s := { s with
    accessToken := access,
    refreshToken := refresh,
    accessTokenExpiresAt := some (now + accessExpiryMs),
    refreshTokenExpiresAt := some (now + refreshExpiryMs),
    storedAccess := if tokenTruthy access then access else none,
    storedRefresh := if tokenTruthy refresh then refresh else none,
    storedAccessExp := some (now + accessExpiryMs),
    storedRefreshExp := some (now + refreshExpiryMs) }
  updateAuthenticationState now s

/-- clearPersistence from auth-store.ts: clears the four refs and the
profile, removes the four localStorage slots, and recomputes the
session status. -/
def clearPersistence (now : Int) (s : AuthSt) : AuthSt :=
  updateAuthenticationState now
    { s with
      accessToken := none,
      refreshToken := none,
      accessTokenExpiresAt := none,
      refreshTokenExpiresAt := none,
      profile := none,
      storedAccess := none,
      storedRefresh := none,
      storedAccessExp := none,
      storedRefreshExp := none }

/-- emitEvent from auth-store.ts, recorded in the event log. -/
def emitEvent (name : String) (s : AuthSt) : AuthSt :=
  { s with events := s.events ++ [name] }

/-- The store-creation reads of auth-store.ts (lines 87-90 and the
updateAuthenticationState call at the end of the setup function): a
fresh store loads the token refs through serializeToken from
localStorage and the expiry refs through readNumber. Volatile state
(profile, promises, counters) starts empty; the event log of the
surrounding window persists. -/
def loadStore (now : Int) (s : AuthSt) : AuthSt :=
  updateAuthenticationState now
    { accessToken := serializeToken s.storedAccess,
      refreshToken := serializeToken s.storedRefresh,
      accessTokenExpiresAt := s.storedAccessExp,
      refreshTokenExpiresAt := s.storedRefreshExp,
      profile := none,
      storedAccess := s.storedAccess,
      storedRefresh := s.storedRefresh,
      storedAccessExp := s.storedAccessExp,
      storedRefreshExp := s.storedRefreshExp,
      refreshPromiseId := none,
      nextPromiseId := s.nextPromiseId,
      refreshNetworkCalls := s.refreshNetworkCalls,
      sessionStatus := false,
      events := s.events }

/-- The synchronous result of calling refreshTokens: either the thrown
Session expired error, or the promise the caller ends up awaiting. -/
inductive RefreshStartResult where
  | sessionExpired
  | promiseOf (pid : Nat)
  deriving Repr, DecidableEq

/-- The synchronous prefix of refreshTokens (auth-store.ts lines
228-241): throw Session expired when no valid refresh token is present;
return the in-flight promise when one exists; otherwise mint a new
promise, issue the single AuthApi.refresh network call, and record the
promise as in flight. The event loop runs this prefix atomically. -/
def refreshStart (now : Int) (s : AuthSt) : AuthSt × RefreshStartResult :=
  if ¬ (hasValidRefreshToken now s ∧ tokenTruthy s.refreshToken) then
    (s, .sessionExpired)
  else
    match s.refreshPromiseId with
    | some p => (s, .promiseOf p)
    | none =>
      let pid := s.nextPromiseId
      ({ s with
          refreshPromiseId := some pid,
          nextPromiseId := pid + 1,
          refreshNetworkCalls := s.refreshNetworkCalls + 1 }, .promiseOf pid)

/-- The settlement of the in-flight refresh promise (the then/catch/
finally chain of refreshTokens): on success persist the new tokens and
resolve with the new access token; on failure clear the session, emit
the auth:logout event and re-raise; in both cases drop the in-flight
promise. The returned Except is the outcome every awaiter of the
promise observes. -/
def refreshSettle (now : Int) (outcome : Except String TokenResponse) (s : AuthSt) :
    AuthSt × Except String String :=
  match outcome with
  | .ok tokens =>
    ({ persistTokens now tokens s with refreshPromiseId := none }, .ok tokens.access_token)
  | .error e =>
    ({ emitEvent "auth:logout" (clearPersistence now s) with refreshPromiseId := none },
      .error e)

/-- A burst of n concurrent refreshTokens calls: each call runs its
synchronous prefix before the refresh promise settles (the event loop
interleaves only at await points, so the prefixes run back to back). -/
def refreshCalls (now : Int) (s : AuthSt) : Nat → AuthSt × List RefreshStartResult
  | 0 => (s, [])
  | n + 1 =>
    let (s1, r) := refreshStart now s
    let (s2, rs) := refreshCalls now s1 n
    (s2, r :: rs)

/-! ## Authorized request gateway (src/api/instance.ts, authorizedFetch) -/

/-- An axios request config as the response interceptor sees it: the
private retry marker, the skip-refresh header flag, and the
Authorization header. -/
structure AxiosCfg where
  isRetry : Bool
  skipRefresh : Bool
  authToken : Option String
  deriving Repr, DecidableEq

/-- The gateway state owned by setupApiInterceptors: the isRefreshing
flag and the queue of requests parked behind the in-flight refresh. -/
structure GwSt where
  isRefreshing : Bool
  queue : List AxiosCfg
  deriving Repr, DecidableEq

/-- The decision the response interceptor takes for a failed response. -/
inductive InterceptAction where
  | reject
  | logoutReject
  | enqueued
  | refresh (reissued : AxiosCfg)
  deriving Repr, DecidableEq

/-- The 401 response interceptor of instance.ts (lines 175-229), up to
its first await: no response, a non-401 status, a missing config or the
skip-refresh flag propagate the error; a request already marked as a
retry propagates the error; without a valid refresh token the store is
force-logged-out and the error propagated; while a refresh is in flight
the request is enqueued; otherwise the request is marked retried, the
isRefreshing flag is set and this request becomes the refresher. -/
def respInterceptor401 (hasResponse : Bool) (status : Nat) (cfg : Option AxiosCfg)
    (hasRefreshTok : Bool) (gw : GwSt) : GwSt × InterceptAction :=
  match cfg with
  | none => (gw, .reject)
  | some c =>
    if ¬ hasResponse ∨ status ≠ 401 ∨ c.skipRefresh then (gw, .reject)
    else if c.isRetry then (gw, .reject)
    else if ¬ hasRefreshTok then (gw, .logoutReject)
    else if gw.isRefreshing then ({ gw with queue := gw.queue ++ [c] }, .enqueued)
    else ({ gw with isRefreshing := true }, .refresh { c with isRetry := true })

/-- processQueue from instance.ts: drains every queued entry; on a
refresh error all entries are rejected; on success every entry gets the
new token, is marked __isRetry = true, and is reissued. Returns the
emptied gateway state and, per entry, either the rejection or the
reissued config. -/
def processQueue (failed : Bool) (token : Option String) (gw : GwSt) :
    GwSt × List (Except Unit AxiosCfg) :=
  ({ gw with queue := [] },
    gw.queue.map (fun c =>
      if failed then .error ()
      else .ok { c with
          isRetry := true,
          authToken := match token with | some t => some t | none => c.authToken }))

/-- Trace of one authorizedFetch call (auth-store.ts lines 321-355):
the final outcome (a returned response status or a re-raised refresh
error), how many network fetches were made, how many refreshTokens
calls were made, and whether forceLogout ran. -/
structure FetchTrace where
  result : Except String Nat
  fetchCount : Nat
  refreshCount : Nat
  loggedOut : Bool
  deriving Repr

/-- authorizedFetch from auth-store.ts, parameterized by its
environment: allowRetry is options.retry !== false, refreshValid is the
hasValidRefreshToken() check at retry time, refreshOutcome is what the
(single) refreshTokens call would yield, and s1, s2 are the statuses
the first and second network fetch would return. The second fetch's
response is returned as is - a second 401 is handed back to the caller
without another refresh. -/
def authorizedFetch (allowRetry : Bool) (refreshValid : Bool)
    (refreshOutcome : Except String String) (s1 s2 : Nat) : FetchTrace :=
  if s1 = 401 ∧ allowRetry then
    if ¬ refreshValid then ⟨.ok s1, 1, 0, true⟩
    else
      match refreshOutcome with
      | .ok _ => ⟨.ok s2, 2, 1, false⟩
      | .error e => ⟨.error e, 1, 1, true⟩
  else ⟨.ok s1, 1, 0, false⟩

/-! ## History hydration (Chat.vue, hydrateHistoryMessages) -/

/-- The hydration-related state of the Chat component, generic in the
type H of the displayed history: the monotone historyHydrationToken,
the activeHistoryObjectUrls bucket, the cumulative log of every
URL.revokeObjectURL call, and hydratedHistory.value. -/
structure HydrationSt (H : Type) where
  historyToken : Nat
  activeUrls : List String
  revokedUrls : List String
  displayed : H

/-- The synchronous prefix of hydrateHistoryMessages: increment the
generation token, remember it as this request's id, and show the
placeholder immediately. -/
def startHydration {H : Type} (placeholder : H) (s : HydrationSt H) : HydrationSt H × Nat :=
  let id := s.historyToken + 1
  ({ s with historyToken := id, displayed := placeholder }, id)

/-- The finally block of hydrateHistoryMessages, run when this
request's fetches have settled with the blob URLs pendingUrls and the
hydrated history result: if the request is still the latest generation,
revoke the previously active bucket, adopt pendingUrls and display the
result; otherwise revoke this request's own pendingUrls and change
nothing else. -/
def completeHydration {H : Type} (id : Nat) (pendingUrls : List String) (result : H)
    (s : HydrationSt H) : HydrationSt H :=
  if id = s.historyToken then
    { s with
      revokedUrls := s.revokedUrls ++ s.activeUrls,
      activeUrls := pendingUrls,
      displayed := result }
  else
    { s with revokedUrls := s.revokedUrls ++ pendingUrls }

/-! ## The connect handler (Chat.vue, defineConnectFn) -/

/-- The text/attachment gate of the connect handler (Chat.vue lines
661-691), generic in the attachment type: without a thread id nothing
is sent; with an empty or whitespace-only prepared text and no
attachments nothing is sent; with attachments the literal text
"Process as expected." is substituted; otherwise the prepared text is
sent unchanged. Returns the (text, attachments) pair handed to
sendStreamingMessage, or none when no streaming request is issued. -/
def connectHandlerSend {A : Type} (threadId : Option String) (textMessage : Option String)
    (attachments : List A) : Option (String × List A) :=
  match threadId with
  | none => none
  | some _ =>
    let preparedText := match textMessage with | some t => t | none => ""
    if jsTrim preparedText = "" then
      if attachments.isEmpty then none
      else some ("Process as expected.", attachments)
    else some (preparedText, attachments)

/-! ## Derived specification functions

The functions below restate, as pure text-level functions, what one
chunk contributes; the theorems relate them to the stateful embedding
above. -/

/-- The text one part of an array-shaped content contributes. -/
def partText (part : JVal) : String :=
  match part with
  | .jstr s => s
  | _ =>
    if isObjectLike part then
      match jget part "text" with
      | some (.jstr t) => t
      | _ => ""
    else ""

/-- The text an array-shaped content contributes: its parts in order. -/
def listText (parts : List JVal) : String :=
  parts.foldl (fun acc p => acc ++ partText p) ""

/-- The text one content value contributes: a string itself, an array
its parts in order, an object its text field. -/
def contentOf (content : JVal) : String :=
  match content with
  | .jstr s => s
  | .jarr parts => listText parts
  | _ =>
    if isObjectLike content then
      match jget content "text" with
      | some (.jstr t) => t
      | _ => ""
    else ""

/-- The text the delta block of one choice contributes. -/
def deltaContrib (choice : JVal) : String :=
  match jget choice "delta" with
  | none => ""
  | some d =>
    if truthy d then
      match d with
      | .jobj _ => if jhas d "content" then contentOf ((jget d "content").getD .jnull) else ""
      | _ => ""
    else ""

/-- The text the message block of one choice contributes. -/
def msgContrib (choice : JVal) : String :=
  match jget choice "message" with
  | none => ""
  | some m =>
    if truthy m then
      match m with
      | .jobj _ => if jhas m "content" then contentOf ((jget m "content").getD .jnull) else ""
      | _ => ""
    else ""

/-- The text one choice contributes: delta content, then message
content. -/
def choiceContrib (choice : JVal) : String :=
  if isObjectLike choice then deltaContrib choice ++ msgContrib choice else ""

/-- The text a choice list contributes, in order. -/
def choicesText (cs : List JVal) : String :=
  cs.foldl (fun acc c => acc ++ choiceContrib c) ""

/-- The text one well-formed chunk contributes: its choices in order. -/
def payloadContrib (payload : JVal) : String :=
  if isObjectLike payload then choicesText (choicesOf payload) else ""

/-- Whether one choice carries a role hint: a truthy object delta whose
role field is a nonempty string. -/
def choiceHasRole (choice : JVal) : Bool :=
  if isObjectLike choice then
    match jget choice "delta" with
    | some (.jobj fs) =>
      match jget (.jobj fs) "role" with
      | some (.jstr r) => r != ""
      | _ => false
    | _ => false
  else false

/-- Whether a chunk carries a role hint in any of its choices. -/
def payloadHasRoleHint (payload : JVal) : Bool :=
  if isObjectLike payload then (choicesOf payload).any choiceHasRole else false

/-- Whether the metadata merge of one chunk changes the attachment map
in the given state (the chunkHasFiles flag of processPayload). -/
def payloadFilesChanged (env : StreamEnv) (st : StreamSt) (payload : JVal) : Bool :=
  match jget payload "message_metadata" with
  | some m =>
    if isObjectLike m then (upsertAssistantFiles env (jget m "attachments") st).2 else false
  | none => false

/-- The emission condition of the spec: a chunk triggers an emission
exactly when it contributes new text, new attachments, or - before any
emission - a role hint. -/
def emitSpec (env : StreamEnv) (st : StreamSt) (payload : JVal) : Bool :=
  (payloadContrib payload != "") || payloadFilesChanged env st payload ||
    (payloadHasRoleHint payload && !st.hasAssistantMessage)

/-- One application of an attachments payload to the stream state
(the state component of upsertAssistantFiles). -/
def applyAttachments (env : StreamEnv) (payload : JVal) (st : StreamSt) : StreamSt :=
  (upsertAssistantFiles env (some payload) st).1

/-- The parsed payloads of a data-line sequence, in arrival order. -/
def wellFormedPayloads (lines : List DataLine) : List JVal :=
  lines.filterMap (fun l => match l with | .payload v => some v | _ => none)

/-- The concatenated contribution of a payload sequence. -/
def textOfPayloads (ps : List JVal) : String :=
  ps.foldl (fun acc p => acc ++ payloadContrib p) ""

/-- Whether an attachment entry would resolve to a freshly minted blob
URL: a nonempty download_url that resolves to a protected URL whose
authorized fetch succeeds (each such resolution calls
URL.createObjectURL and therefore yields a new, unique src). -/
def attHasFreshBlobSrc (env : StreamEnv) (a : JVal) : Bool :=
  let downloadUrl := jsTrim (getStrField a "download_url")
  downloadUrl != "" &&
    (let absoluteUrl := env.resolveUrl downloadUrl
     (absoluteUrl != "" && env.isProtectedUrl absoluteUrl && env.fetchOk absoluteUrl))

/-- Whether an attachment entry carries a usable id key: a string id
that is nonempty after trimming. -/
def attHasId (a : JVal) : Bool :=
  match jget a "id" with
  | some (.jstr s) => jsTrim s != ""
  | _ => false

/-- The canonical dedup key of an attachment entry, when its resolution
is deterministic (or its key is its id): the trimmed id if usable, else
the src the entry resolves to. none when the entry is skipped (not an
object, or no src could be determined). -/
def attKey (env : StreamEnv) (a : JVal) : Option String :=
  if isObjectLike a then
    match (normalizeStreamAttachmentFile env a 0).1 with
    | none => none
    | some n => some (if attHasId a then jsTrim (getStrField a "id") else n.src)
  else none

/-! ## Concrete fixtures used by witnesses and counterexamples -/

/-- A concrete stream environment: the API origin is
https://api.example.com, relative URLs resolve against it, every
authorized fetch succeeds, and the fallback text is the Russian
chat.errors.stream message from the locale file. -/
def exEnv : StreamEnv where
  isProtectedUrl := fun u => u = "https://api.example.com/attachments/x"
  resolveUrl := fun s => "https://api.example.com" ++ s
  fetchOk := fun _ => true
  fallbackMsg := "Ошибка, попробуйте ещё раз."
  resolve_ne := by
    intro s h
    rw [String.ext_iff] at h
    simp [String.data_append] at h

/-- The first scenario chunk: choices[0].delta carries role assistant
and content Hel. -/
def chunkHel : JVal :=
  .jobj [("choices", .jarr [.jobj [("delta",
    .jobj [("role", .jstr "assistant"), ("content", .jstr "Hel")])]])]

/-- The second scenario chunk: choices[0].delta carries content lo. -/
def chunkLo : JVal :=
  .jobj [("choices", .jarr [.jobj [("delta", .jobj [("content", .jstr "lo")])]])]

/-- An in-band error chunk with the given error.message. -/
def errChunkOf (m : String) : JVal :=
  .jobj [("error", .jobj [("message", .jstr m)])]

/-- A protected attachment record without an id: filename f,
download_url /attachments/x. -/
def protectedAtt : JVal :=
  .jobj [("filename", .jstr "f"), ("download_url", .jstr "/attachments/x")]

/-- An empty auth store state over empty localStorage. -/
def blankAuthSt : AuthSt :=
  ⟨none, none, none, none, none, none, none, none, none, none, 0, 0, false, []⟩

/-- An auth store state holding a refresh token valid far into the
future (expiry timestamp 1000000 ms), with no refresh in flight. -/
def authStValid : AuthSt :=
  ⟨none, some "r", none, some 1000000, none, none, some "r", none, some 1000000,
    none, 0, 0, true, []⟩

end WebChat

namespace WebChat

theorem append_eq_empty_iff (a b : String) : a ++ b = "" ↔ a = "" ∧ b = "" := by
  rw [String.ext_iff, String.ext_iff, String.ext_iff]
  simp [String.data_append]

theorem bne_empty_append (a b : String) :
    ((a ++ b) != "") = ((a != "") || (b != "")) := by
  by_cases h1 : a = ""
  · subst h1; simp [String.empty_append]
  · by_cases h2 : b = ""
    · subst h2; simp [String.append_empty]
    · have hne : a ++ b ≠ "" := fun hc => h1 ((append_eq_empty_iff a b).mp hc).1
      rw [Bool.eq_iff_iff]
      simp [h1, h2, hne]

theorem appendPart_eq (acc : String × Bool) (p : JVal) :
    appendPart acc p = (acc.1 ++ partText p, acc.2 || (partText p != "")) := by
  cases p with
  | jstr s =>
    by_cases h : s = "" <;> simp [appendPart, partText, h, String.append_empty]
  | jobj fs =>
    simp only [appendPart, partText, isObjectLike]
    cases hj : jget (.jobj fs) "text" with
    | none => simp [hj, String.append_empty]
    | some v =>
      cases v with
      | jstr t => by_cases h : t = "" <;> simp [hj, h, String.append_empty]
      | jnull => simp [hj, String.append_empty]
      | jbool b => simp [hj, String.append_empty]
      | jnum n => simp [hj, String.append_empty]
      | jarr l => simp [hj, String.append_empty]
      | jobj l => simp [hj, String.append_empty]
  | jarr items =>
    simp [appendPart, partText, isObjectLike, jget, String.append_empty]
  | jnull => simp [appendPart, partText, isObjectLike, String.append_empty]
  | jbool b => simp [appendPart, partText, isObjectLike, String.append_empty]
  | jnum n => simp [appendPart, partText, isObjectLike, String.append_empty]

theorem foldl_partText (ps : List JVal) (a : String) :
    ps.foldl (fun acc p => acc ++ partText p) a = a ++ listText ps := by
  induction ps generalizing a with
  | nil => simp [listText, String.append_empty]
  | cons p ps ih =>
    have hcons : listText (p :: ps) = partText p ++ listText ps := by
      simp only [listText, List.foldl_cons]
      rw [ih, String.empty_append]
      rfl
    simp only [List.foldl_cons, hcons]
    rw [ih, String.append_assoc]

theorem listText_cons (p : JVal) (ps : List JVal) :
    listText (p :: ps) = partText p ++ listText ps := by
  simp only [listText, List.foldl_cons]
  rw [foldl_partText, String.empty_append]
  rfl

theorem foldl_appendPart (ps : List JVal) (t : String) (b : Bool) :
    ps.foldl appendPart (t, b) = (t ++ listText ps, b || (listText ps != "")) := by
  induction ps generalizing t b with
  | nil => simp [listText, String.append_empty]
  | cons p ps ih =>
    simp only [List.foldl_cons, appendPart_eq, ih, listText_cons]
    refine Prod.ext ?_ ?_
    · simp [String.append_assoc]
    · simp [bne_empty_append, Bool.or_assoc]

theorem appendContent_eq (t : String) (c : JVal) :
    appendContent t c = (t ++ contentOf c, (contentOf c != "")) := by
  cases c with
  | jstr s =>
    by_cases h : s = "" <;> simp [appendContent, contentOf, h, String.append_empty]
  | jarr parts =>
    simp [appendContent, contentOf, foldl_appendPart]
  | jobj fs =>
    simp only [appendContent, contentOf, isObjectLike]
    cases hj : jget (.jobj fs) "text" with
    | none => simp [hj, String.append_empty]
    | some v =>
      cases v with
      | jstr u => by_cases h : u = "" <;> simp [hj, h, String.append_empty]
      | jnull => simp [hj, String.append_empty]
      | jbool b => simp [hj, String.append_empty]
      | jnum n => simp [hj, String.append_empty]
      | jarr l => simp [hj, String.append_empty]
      | jobj l => simp [hj, String.append_empty]
  | jnull => simp [appendContent, contentOf, isObjectLike, String.append_empty]
  | jbool b => simp [appendContent, contentOf, isObjectLike, String.append_empty]
  | jnum n => simp [appendContent, contentOf, isObjectLike, String.append_empty]

end WebChat

namespace WebChat

theorem deltaStep_ok (acc acc1 : ChunkAcc) (choice : JVal)
    (hobj : isObjectLike choice = true)
    (h : deltaStep acc choice = .ok acc1) :
    acc1.st.assistantText = acc.st.assistantText ++ deltaContrib choice ∧
    acc1.st.hasAssistantMessage = acc.st.hasAssistantMessage ∧
    acc1.st.responses = acc.st.responses ∧
    acc1.st.fileMap = acc.st.fileMap ∧
    acc1.st.urlCounter = acc.st.urlCounter ∧
    acc1.st.streamingFinished = acc.st.streamingFinished ∧
    acc1.hasContent = ((deltaContrib choice != "") || acc.hasContent) ∧
    acc1.hasRoleHint =
      (acc.hasRoleHint || (choiceHasRole choice && !acc.st.hasAssistantMessage)) := by
  cases hd : jget choice "delta" with
  | none =>
    simp only [deltaStep, hd] at h
    cases h
    simp [deltaContrib, hd, choiceHasRole, hobj, String.append_empty]
  | some d =>
    cases d with
    | jobj fs =>
      simp only [deltaStep, hd, truthy, if_true] at h
      cases hr : jget (.jobj fs) "role" with
      | none =>
        simp only [hr] at h
        by_cases hc : jhas (.jobj fs) "content"
        · simp only [hc, if_true, appendContent_eq] at h
          cases h
          simp [deltaContrib, hd, truthy, hc, choiceHasRole, hobj, hr]
        · simp only [hc, if_false] at h
          cases h
          simp [deltaContrib, hd, truthy, hc, choiceHasRole, hobj, hr, String.append_empty]
      | some v =>
        cases v with
        | jstr r =>
          by_cases hrne : r = ""
          · subst hrne
            simp only [hr] at h
            rw [if_neg (by simp : ¬(("" : String) ≠ ""))] at h
            by_cases hc : jhas (.jobj fs) "content"
            · simp only [hc, if_true, appendContent_eq] at h
              cases h
              simp [deltaContrib, hd, truthy, hc, choiceHasRole, hobj, hr]
            · simp only [hc, if_false] at h
              cases h
              simp [deltaContrib, hd, truthy, hc, choiceHasRole, hobj, hr,
                String.append_empty]
          · simp only [hr, if_pos hrne] at h
            have hrb : (r != "") = true := by simp [hrne]
            by_cases hc : jhas (.jobj fs) "content"
            · simp only [hc, if_true, appendContent_eq] at h
              cases h
              simp [deltaContrib, hd, truthy, hc, choiceHasRole, hobj, hr, hrb]
            · simp only [hc, if_false] at h
              cases h
              simp [deltaContrib, hd, truthy, hc, choiceHasRole, hobj, hr, hrb,
                String.append_empty]
        | jnull =>
          simp only [hr] at h
          by_cases hc : jhas (.jobj fs) "content"
          · simp only [hc, if_true, appendContent_eq] at h
            cases h
            simp [deltaContrib, hd, truthy, hc, choiceHasRole, hobj, hr]
          · simp only [hc, if_false] at h
            cases h
            simp [deltaContrib, hd, truthy, hc, choiceHasRole, hobj, hr, String.append_empty]
        | jbool b =>
          simp only [hr] at h
          by_cases hc : jhas (.jobj fs) "content"
          · simp only [hc, if_true, appendContent_eq] at h
            cases h
            simp [deltaContrib, hd, truthy, hc, choiceHasRole, hobj, hr]
          · simp only [hc, if_false] at h
            cases h
            simp [deltaContrib, hd, truthy, hc, choiceHasRole, hobj, hr, String.append_empty]
        | jnum n =>
          simp only [hr] at h
          by_cases hc : jhas (.jobj fs) "content"
          · simp only [hc, if_true, appendContent_eq] at h
            cases h
            simp [deltaContrib, hd, truthy, hc, choiceHasRole, hobj, hr]
          · simp only [hc, if_false] at h
            cases h
            simp [deltaContrib, hd, truthy, hc, choiceHasRole, hobj, hr, String.append_empty]
        | jarr l =>
          simp only [hr] at h
          by_cases hc : jhas (.jobj fs) "content"
          · simp only [hc, if_true, appendContent_eq] at h
            cases h
            simp [deltaContrib, hd, truthy, hc, choiceHasRole, hobj, hr]
          · simp only [hc, if_false] at h
            cases h
            simp [deltaContrib, hd, truthy, hc, choiceHasRole, hobj, hr, String.append_empty]
        | jobj l =>
          simp only [hr] at h
          by_cases hc : jhas (.jobj fs) "content"
          · simp only [hc, if_true, appendContent_eq] at h
            cases h
            simp [deltaContrib, hd, truthy, hc, choiceHasRole, hobj, hr]
          · simp only [hc, if_false] at h
            cases h
            simp [deltaContrib, hd, truthy, hc, choiceHasRole, hobj, hr, String.append_empty]
    | jarr l =>
      simp only [deltaStep, hd, truthy, if_true] at h
      cases h
      simp [deltaContrib, hd, truthy, choiceHasRole, hobj, String.append_empty]
    | jnull =>
      simp only [deltaStep, hd, truthy] at h
      cases h
      simp [deltaContrib, hd, truthy, choiceHasRole, hobj, String.append_empty]
    | jbool b =>
      by_cases hb : b = true
      · subst hb
        simp only [deltaStep, hd, truthy, if_true] at h
        simp at h
      · simp only [deltaStep, hd, truthy] at h
        simp only [hb] at h
        simp only [Bool.false_eq_true, if_false] at h
        cases h
        simp [deltaContrib, hd, truthy, hb, choiceHasRole, hobj, String.append_empty]
    | jnum n =>
      by_cases hn : n = 0
      · subst hn
        simp only [deltaStep, hd, truthy] at h
        simp only [bne_self_eq_false] at h
        simp only [Bool.false_eq_true, if_false] at h
        cases h
        simp [deltaContrib, hd, truthy, choiceHasRole, hobj, String.append_empty]
      · simp only [deltaStep, hd, truthy] at h
        rw [if_pos (by simpa using hn)] at h
        simp at h
    | jstr s =>
      by_cases hs : s = ""
      · subst hs
        simp only [deltaStep, hd, truthy] at h
        simp only [bne_self_eq_false] at h
        simp only [Bool.false_eq_true, if_false] at h
        cases h
        simp [deltaContrib, hd, truthy, choiceHasRole, hobj, String.append_empty]
      · simp only [deltaStep, hd, truthy] at h
        rw [if_pos (by simpa using hs)] at h
        simp at h

end WebChat

namespace WebChat

theorem msgStep_ok (acc acc1 : ChunkAcc) (choice : JVal)
    (h : msgStep acc choice = .ok acc1) :
    acc1.st.assistantText = acc.st.assistantText ++ msgContrib choice ∧
    acc1.st.hasAssistantMessage = acc.st.hasAssistantMessage ∧
    acc1.st.responses = acc.st.responses ∧
    acc1.st.fileMap = acc.st.fileMap ∧
    acc1.st.urlCounter = acc.st.urlCounter ∧
    acc1.st.streamingFinished = acc.st.streamingFinished ∧
    acc1.hasContent = ((msgContrib choice != "") || acc.hasContent) ∧
    acc1.hasRoleHint = acc.hasRoleHint := by
  cases hd : jget choice "message" with
  | none =>
    simp only [msgStep, hd] at h
    cases h
    simp [msgContrib, hd, String.append_empty]
  | some m =>
    cases m with
    | jobj fs =>
      simp only [msgStep, hd, truthy, if_true] at h
      by_cases hc : jhas (.jobj fs) "content"
      · simp only [hc, if_true, appendContent_eq] at h
        cases h
        simp [msgContrib, hd, truthy, hc]
      · simp only [hc, if_false] at h
        cases h
        simp [msgContrib, hd, truthy, hc, String.append_empty]
    | jarr l =>
      simp only [msgStep, hd, truthy, if_true] at h
      cases h
      simp [msgContrib, hd, truthy, String.append_empty]
    | jnull =>
      simp only [msgStep, hd, truthy] at h
      cases h
      simp [msgContrib, hd, truthy, String.append_empty]
    | jbool b =>
      by_cases hb : b = true
      · subst hb
        simp only [msgStep, hd, truthy, if_true] at h
        simp at h
      · simp only [msgStep, hd, truthy] at h
        simp only [hb] at h
        simp only [Bool.false_eq_true, if_false] at h
        cases h
        simp [msgContrib, hd, truthy, hb, String.append_empty]
    | jnum n =>
      by_cases hn : n = 0
      · subst hn
        simp only [msgStep, hd, truthy] at h
        simp only [bne_self_eq_false] at h
        simp only [Bool.false_eq_true, if_false] at h
        cases h
        simp [msgContrib, hd, truthy, String.append_empty]
      · simp only [msgStep, hd, truthy] at h
        rw [if_pos (by simpa using hn)] at h
        simp at h
    | jstr s =>
      by_cases hs : s = ""
      · subst hs
        simp only [msgStep, hd, truthy] at h
        simp only [bne_self_eq_false] at h
        simp only [Bool.false_eq_true, if_false] at h
        cases h
        simp [msgContrib, hd, truthy, String.append_empty]
      · simp only [msgStep, hd, truthy] at h
        rw [if_pos (by simpa using hs)] at h
        simp at h

theorem processChoice_ok (acc acc1 : ChunkAcc) (choice : JVal)
    (h : processChoice acc choice = .ok acc1) :
    acc1.st.assistantText = acc.st.assistantText ++ choiceContrib choice ∧
    acc1.st.hasAssistantMessage = acc.st.hasAssistantMessage ∧
    acc1.st.responses = acc.st.responses ∧
    acc1.st.fileMap = acc.st.fileMap ∧
    acc1.st.urlCounter = acc.st.urlCounter ∧
    acc1.st.streamingFinished = acc.st.streamingFinished ∧
    acc1.hasContent = (acc.hasContent || (choiceContrib choice != "")) ∧
    acc1.hasRoleHint =
      (acc.hasRoleHint || (choiceHasRole choice && !acc.st.hasAssistantMessage)) := by
  by_cases hobj : isObjectLike choice = true
  · simp only [processChoice, hobj, not_true, if_false] at h
    cases hds : deltaStep acc choice with
    | error e => rw [hds] at h; simp at h
    | ok accm =>
      rw [hds] at h
      obtain ⟨d1, d2, d3, d4, d5, d6, d7, d8⟩ := deltaStep_ok acc accm choice hobj hds
      obtain ⟨m1, m2, m3, m4, m5, m6, m7, m8⟩ := msgStep_ok accm acc1 choice h
      refine ⟨?_, ?_, ?_, ?_, ?_, ?_, ?_, ?_⟩
      · rw [m1, d1, choiceContrib, if_pos hobj, String.append_assoc]
      · rw [m2, d2]
      · rw [m3, d3]
      · rw [m4, d4]
      · rw [m5, d5]
      · rw [m6, d6]
      · rw [m7, d7, choiceContrib, if_pos hobj, bne_empty_append]
        simp [Bool.or_comm, Bool.or_left_comm, Bool.or_assoc]
      · rw [m8, d8]
  · simp only [processChoice, hobj, if_true] at h
    cases h
    simp [choiceContrib, hobj, choiceHasRole, String.append_empty]

theorem choicesText_cons (c : JVal) (cs : List JVal) :
    choicesText (c :: cs) = choiceContrib c ++ choicesText cs := by
  have hshift : ∀ (l : List JVal) (a : String),
      l.foldl (fun acc x => acc ++ choiceContrib x) a = a ++ choicesText l := by
    intro l
    induction l with
    | nil => intro a; simp [choicesText, String.append_empty]
    | cons x xs ih =>
      intro a
      simp only [choicesText, List.foldl_cons, String.empty_append] at ih ⊢
      rw [ih (a ++ choiceContrib x), ih (choiceContrib x), String.append_assoc]
  simp only [choicesText, List.foldl_cons, String.empty_append]
  rw [hshift]
  rfl

theorem processChoices_ok (cs : List JVal) (acc accN : ChunkAcc)
    (h : processChoices acc cs = .ok accN) :
    accN.st.assistantText = acc.st.assistantText ++ choicesText cs ∧
    accN.st.hasAssistantMessage = acc.st.hasAssistantMessage ∧
    accN.st.responses = acc.st.responses ∧
    accN.st.fileMap = acc.st.fileMap ∧
    accN.st.urlCounter = acc.st.urlCounter ∧
    accN.st.streamingFinished = acc.st.streamingFinished ∧
    accN.hasContent = (acc.hasContent || (choicesText cs != "")) ∧
    accN.hasRoleHint =
      (acc.hasRoleHint || (cs.any choiceHasRole && !acc.st.hasAssistantMessage)) := by
  induction cs generalizing acc with
  | nil =>
    simp only [processChoices] at h
    cases h
    simp [choicesText, String.append_empty]
  | cons c cs ih =>
    simp only [processChoices] at h
    cases hpc : processChoice acc c with
    | error e => rw [hpc] at h; simp at h
    | ok acc1 =>
      rw [hpc] at h
      obtain ⟨c1, c2, c3, c4, c5, c6, c7, c8⟩ := processChoice_ok acc acc1 c hpc
      obtain ⟨i1, i2, i3, i4, i5, i6, i7, i8⟩ := ih acc1 h
      refine ⟨?_, ?_, ?_, ?_, ?_, ?_, ?_, ?_⟩
      · rw [i1, c1, choicesText_cons, String.append_assoc]
      · rw [i2, c2]
      · rw [i3, c3]
      · rw [i4, c4]
      · rw [i5, c5]
      · rw [i6, c6]
      · rw [i7, c7, choicesText_cons, bne_empty_append]
        simp [Bool.or_comm, Bool.or_left_comm, Bool.or_assoc]
      · rw [i8, c8, c2, List.any_cons]
        simp [Bool.or_comm, Bool.or_left_comm, Bool.or_assoc, Bool.and_or_distrib_right]

end WebChat

namespace WebChat

theorem upsertOne_preserves (env : StreamEnv) (acc : StreamSt × Bool) (c : JVal) :
    (upsertOne env acc c).1.assistantText = acc.1.assistantText ∧
    (upsertOne env acc c).1.hasAssistantMessage = acc.1.hasAssistantMessage ∧
    (upsertOne env acc c).1.assistantRole = acc.1.assistantRole ∧
    (upsertOne env acc c).1.streamingFinished = acc.1.streamingFinished ∧
    (upsertOne env acc c).1.responses = acc.1.responses := by
  by_cases hobj : isObjectLike c = true
  · rcases hnf : normalizeStreamAttachmentFile env c acc.1.urlCounter with ⟨o, c2⟩
    cases o with
    | none => simp [upsertOne, hobj, hnf]
    | some n =>
      simp only [upsertOne, hobj, not_true, if_false, hnf]
      repeat' split
      all_goals simp
  · simp [upsertOne, hobj]

theorem upsertFold_preserves (env : StreamEnv) (items : List JVal) (acc : StreamSt × Bool) :
    (items.foldl (upsertOne env) acc).1.assistantText = acc.1.assistantText ∧
    (items.foldl (upsertOne env) acc).1.hasAssistantMessage = acc.1.hasAssistantMessage ∧
    (items.foldl (upsertOne env) acc).1.assistantRole = acc.1.assistantRole ∧
    (items.foldl (upsertOne env) acc).1.streamingFinished = acc.1.streamingFinished ∧
    (items.foldl (upsertOne env) acc).1.responses = acc.1.responses := by
  induction items generalizing acc with
  | nil => simp
  | cons i items ih =>
    simp only [List.foldl_cons]
    obtain ⟨a1, a2, a3, a4, a5⟩ := ih (upsertOne env acc i)
    obtain ⟨b1, b2, b3, b4, b5⟩ := upsertOne_preserves env acc i
    exact ⟨a1.trans b1, a2.trans b2, a3.trans b3, a4.trans b4, a5.trans b5⟩

theorem upsertAssistantFiles_preserves (env : StreamEnv) (cl : Option JVal) (st : StreamSt) :
    (upsertAssistantFiles env cl st).1.assistantText = st.assistantText ∧
    (upsertAssistantFiles env cl st).1.hasAssistantMessage = st.hasAssistantMessage ∧
    (upsertAssistantFiles env cl st).1.assistantRole = st.assistantRole ∧
    (upsertAssistantFiles env cl st).1.streamingFinished = st.streamingFinished ∧
    (upsertAssistantFiles env cl st).1.responses = st.responses := by
  cases cl with
  | none => simp [upsertAssistantFiles]
  | some v =>
    cases v with
    | jarr items => exact upsertFold_preserves env items (st, false)
    | jnull => simp [upsertAssistantFiles]
    | jbool b => simp [upsertAssistantFiles]
    | jnum n => simp [upsertAssistantFiles]
    | jstr s => simp [upsertAssistantFiles]
    | jobj fs => simp [upsertAssistantFiles]

theorem roleHint_absorb (x h : Bool) : (!h && (x && !h)) = (x && !h) := by
  cases h <;> cases x <;> rfl

theorem ensureAssistantMessage_text (st : StreamSt) :
    (ensureAssistantMessage st).assistantText = st.assistantText := rfl

theorem bodyCore (env : StreamEnv) (st mst st' : StreamSt) (p : JVal) (mchanged : Bool)
    (hobj : isObjectLike p = true)
    (hm1 : mst.assistantText = st.assistantText)
    (hm2 : mst.hasAssistantMessage = st.hasAssistantMessage)
    (hm4 : mst.streamingFinished = st.streamingFinished)
    (hm5 : mst.responses = st.responses)
    (hfe : payloadFilesChanged env st p = mchanged)
    (h : (match processChoices ⟨mst, false, false⟩ (choicesOf p) with
          | .error e => Except.error e
          | .ok acc =>
            Except.ok
              (if acc.hasContent || mchanged ||
                  (!acc.st.hasAssistantMessage && acc.hasRoleHint)
                then ensureAssistantMessage acc.st
                else acc.st)) = .ok st') :
    st'.assistantText = st.assistantText ++ payloadContrib p ∧
    st'.streamingFinished = st.streamingFinished ∧
    st'.hasAssistantMessage = (st.hasAssistantMessage || emitSpec env st p) ∧
    (emitSpec env st p = true →
      ∃ role files,
        st'.responses = st.responses ++
          [Resp.message role (st.assistantText ++ payloadContrib p) files
            st.hasAssistantMessage]) ∧
    (emitSpec env st p = false → st'.responses = st.responses) := by
  have hcontrib : payloadContrib p = choicesText (choicesOf p) := by
    simp [payloadContrib, hobj]
  have hany : payloadHasRoleHint p = (choicesOf p).any choiceHasRole := by
    simp [payloadHasRoleHint, hobj]
  cases hcs : processChoices ⟨mst, false, false⟩ (choicesOf p) with
  | error e => rw [hcs] at h; simp at h
  | ok acc =>
    rw [hcs] at h
    simp only [Except.ok.injEq] at h
    obtain ⟨c1, c2, c3, c4, c5, c6, c7, c8⟩ := processChoices_ok (choicesOf p) _ acc hcs
    dsimp only at c1 c2 c3 c4 c5 c6 c7 c8
    have hcond : (acc.hasContent || mchanged ||
        (!acc.st.hasAssistantMessage && acc.hasRoleHint)) = emitSpec env st p := by
      rw [c7, c8, c2, hm2]
      simp only [Bool.false_or]
      rw [roleHint_absorb]
      rw [emitSpec, hcontrib, hfe, hany]
    rw [hcond] at h
    by_cases hc : emitSpec env st p = true
    · rw [hc] at h
      simp only [if_true] at h
      subst h
      refine ⟨?_, ?_, ?_, ?_, ?_⟩
      · rw [ensureAssistantMessage_text, c1, hm1, hcontrib]
      · show (ensureAssistantMessage acc.st).streamingFinished = _
        simp only [ensureAssistantMessage]
        rw [c6, hm4]
      · show (ensureAssistantMessage acc.st).hasAssistantMessage = _
        simp only [ensureAssistantMessage]
        rw [hc, Bool.or_true]
      · intro _
        refine ⟨acc.st.assistantRole.getD "assistant", acc.st.fileMap.map (fun q => q.2), ?_⟩
        show (ensureAssistantMessage acc.st).responses = _
        simp only [ensureAssistantMessage]
        rw [c3, hm5, c1, hm1, hcontrib, c2, hm2]
      · intro hf
        rw [hc] at hf
        exact absurd hf (by simp)
    · have hcf : emitSpec env st p = false := by
        cases hval : emitSpec env st p
        · rfl
        · exact absurd hval hc
      rw [hcf] at h
      simp only [Bool.false_eq_true, if_false] at h
      subst h
      refine ⟨?_, ?_, ?_, ?_, ?_⟩
      · rw [c1, hm1, hcontrib]
      · rw [c6, hm4]
      · rw [c2, hm2, hcf, Bool.or_false]
      · intro htrue
        rw [hcf] at htrue
        exact absurd htrue (by simp)
      · intro _
        rw [c3, hm5]

theorem processPayloadBody_ok (env : StreamEnv) (st : StreamSt) (p : JVal) (st' : StreamSt)
    (hobj : isObjectLike p = true)
    (h : processPayloadBody env st p = .ok st') :
    st'.assistantText = st.assistantText ++ payloadContrib p ∧
    st'.streamingFinished = st.streamingFinished ∧
    st'.hasAssistantMessage = (st.hasAssistantMessage || emitSpec env st p) ∧
    (emitSpec env st p = true →
      ∃ role files,
        st'.responses = st.responses ++
          [Resp.message role (st.assistantText ++ payloadContrib p) files
            st.hasAssistantMessage]) ∧
    (emitSpec env st p = false → st'.responses = st.responses) := by
  cases hmm : jget p "message_metadata" with
  | none =>
    simp only [processPayloadBody, hmm] at h
    exact bodyCore env st st st' p false hobj rfl rfl rfl rfl
      (by simp [payloadFilesChanged, hmm]) h
  | some m =>
    by_cases hm : isObjectLike m = true
    · simp only [processPayloadBody, hmm, hm, if_true] at h
      obtain ⟨p1, p2, p3, p4, p5⟩ :=
        upsertAssistantFiles_preserves env (jget m "attachments") st
      exact bodyCore env st (upsertAssistantFiles env (jget m "attachments") st).1 st' p
        (upsertAssistantFiles env (jget m "attachments") st).2 hobj p1 p2 p4 p5
        (by simp [payloadFilesChanged, hmm, hm]) h
    · simp only [processPayloadBody, hmm, hm, if_false] at h
      exact bodyCore env st st st' p false hobj rfl rfl rfl rfl
        (by simp [payloadFilesChanged, hmm, hm]) h

end WebChat

namespace WebChat

theorem processPayload_ok (env : StreamEnv) (st : StreamSt) (p : JVal) (st' : StreamSt)
    (h : processPayload env st p = .ok st') :
    st'.assistantText = st.assistantText ++ payloadContrib p ∧
    st'.streamingFinished = st.streamingFinished ∧
    st'.hasAssistantMessage = (st.hasAssistantMessage || emitSpec env st p) ∧
    (emitSpec env st p = true →
      ∃ role files,
        st'.responses = st.responses ++
          [Resp.message role (st.assistantText ++ payloadContrib p) files
            st.hasAssistantMessage]) ∧
    (emitSpec env st p = false → st'.responses = st.responses) := by
  by_cases hobj : isObjectLike p = true
  · rw [processPayload, if_neg (by simp [hobj])] at h
    cases he : jget p "error" with
    | none =>
      rw [he] at h
      exact processPayloadBody_ok env st p st' hobj h
    | some e =>
      rw [he] at h
      dsimp only at h
      by_cases hee : isObjectLike e = true
      · rw [if_pos hee] at h
        simp at h
      · rw [if_neg hee] at h
        exact processPayloadBody_ok env st p st' hobj h
  · rw [processPayload, if_pos hobj] at h
    cases h
    cases p with
    | jobj fs => exact absurd rfl hobj
    | jarr l => exact absurd rfl hobj
    | jnull =>
      simp [payloadContrib, emitSpec, payloadFilesChanged, payloadHasRoleHint, jget,
        isObjectLike, String.append_empty]
    | jbool b =>
      simp [payloadContrib, emitSpec, payloadFilesChanged, payloadHasRoleHint, jget,
        isObjectLike, String.append_empty]
    | jnum n =>
      simp [payloadContrib, emitSpec, payloadFilesChanged, payloadHasRoleHint, jget,
        isObjectLike, String.append_empty]
    | jstr s =>
      simp [payloadContrib, emitSpec, payloadFilesChanged, payloadHasRoleHint, jget,
        isObjectLike, String.append_empty]

theorem textOfPayloads_cons (v : JVal) (ps : List JVal) :
    textOfPayloads (v :: ps) = payloadContrib v ++ textOfPayloads ps := by
  have hshift : ∀ (l : List JVal) (a : String),
      l.foldl (fun acc x => acc ++ payloadContrib x) a = a ++ textOfPayloads l := by
    intro l
    induction l with
    | nil => intro a; simp [textOfPayloads, String.append_empty]
    | cons x xs ih =>
      intro a
      simp only [textOfPayloads, List.foldl_cons, String.empty_append] at ih ⊢
      rw [ih (a ++ payloadContrib x), ih (payloadContrib x), String.append_assoc]
  simp only [textOfPayloads, List.foldl_cons, String.empty_append]
  rw [hshift]
  rfl

theorem processDataLines_text (env : StreamEnv) (lines : List DataLine) (st st' : StreamSt)
    (hf : st.streamingFinished = false) (hnd : DataLine.done ∉ lines)
    (h : processDataLines env st lines = .ok st') :
    st'.assistantText = st.assistantText ++ textOfPayloads (wellFormedPayloads lines) := by
  induction lines generalizing st with
  | nil =>
    simp only [processDataLines] at h
    cases h
    simp [wellFormedPayloads, textOfPayloads, String.append_empty]
  | cons l rest ih =>
    simp only [processDataLines] at h
    rw [if_neg (by simp [hf])] at h
    cases l with
    | done => exact absurd (List.mem_cons_self _ _) hnd
    | malformed =>
      dsimp only at h
      have := ih st hf (fun hm => hnd (List.mem_cons_of_mem _ hm)) h
      simpa [wellFormedPayloads] using this
    | payload v =>
      dsimp only at h
      cases hp : processPayload env st v with
      | error e => rw [hp] at h; simp at h
      | ok st2 =>
        rw [hp] at h
        obtain ⟨t1, t2, _, _, _⟩ := processPayload_ok env st v st2 hp
        have hrec := ih st2 (t2.trans hf) (fun hm => hnd (List.mem_cons_of_mem _ hm)) h
        rw [hrec, t1]
        simp only [wellFormedPayloads, List.filterMap_cons]
        rw [String.append_assoc]
        have : textOfPayloads (v :: (wellFormedPayloads rest)) =
            payloadContrib v ++ textOfPayloads (wellFormedPayloads rest) :=
          textOfPayloads_cons v _
        simp only [wellFormedPayloads] at this
        rw [← this]

end WebChat

namespace WebChat

/-- C2: for every sequence of stream data lines, a line that fails to
parse as JSON is skipped without affecting state, and the final
accumulated assistant text is the concatenation, in arrival order, of
the content contributed by the well-formed chunks (delta.content as a
string, an array of strings or text objects, or message.content). -/
theorem C2_malformed_skipped_text_is_concat :
    (∀ (env : StreamEnv) (st : StreamSt) (rest : List DataLine),
      st.streamingFinished = false →
      processDataLines env st (DataLine.malformed :: rest) =
        processDataLines env st rest) ∧
    (∀ (env : StreamEnv) (lines : List DataLine) (st' : StreamSt),
      DataLine.done ∉ lines →
      processDataLines env initStreamSt lines = .ok st' →
      st'.assistantText = textOfPayloads (wellFormedPayloads lines)) := by
  constructor
  · intro env st rest hf
    simp only [processDataLines]
    rw [if_neg (by simp [hf])]
  · intro env lines st' hnd h
    have hx := processDataLines_text env lines initStreamSt st' rfl hnd h
    rw [hx]
    exact String.empty_append _

theorem C2_witness :
    processDataLines exEnv initStreamSt
        (DataLine.malformed :: [DataLine.payload chunkHel]) =
      processDataLines exEnv initStreamSt [DataLine.payload chunkHel] ∧
    (⟨"Hel", true, some "assistant", false, [], 0,
        [Resp.message "assistant" "Hel" [] false]⟩ : StreamSt).assistantText =
      textOfPayloads (wellFormedPayloads
        [DataLine.malformed, DataLine.payload chunkHel]) :=
  ⟨C2_malformed_skipped_text_is_concat.1 exEnv initStreamSt [DataLine.payload chunkHel] rfl,
   C2_malformed_skipped_text_is_concat.2 exEnv
     [DataLine.malformed, DataLine.payload chunkHel]
     ⟨"Hel", true, some "assistant", false, [], 0,
       [Resp.message "assistant" "Hel" [] false]⟩ (by simp) rfl⟩

/-- C3: an update is emitted exactly when a chunk contributes new text,
new attachments, or (before any emission) a role hint; the first
emission carries no overwrite flag and every later emission carries
overwrite with the full accumulated text; and for the chunk sequence
delta role assistant content Hel, delta content lo, [DONE], exactly two
message emissions occur, the second with overwrite and text Hello. -/
theorem C3_emission_policy :
    (∀ (env : StreamEnv) (st : StreamSt) (p : JVal) (st' : StreamSt),
      processPayload env st p = .ok st' →
      (emitSpec env st p = true →
        ∃ role files,
          st'.responses = st.responses ++
            [Resp.message role (st.assistantText ++ payloadContrib p) files
              st.hasAssistantMessage] ∧
          st'.hasAssistantMessage = true) ∧
      (emitSpec env st p = false →
        st'.responses = st.responses ∧
        st'.hasAssistantMessage = st.hasAssistantMessage)) ∧
    runStream exEnv [DataLine.payload chunkHel, DataLine.payload chunkLo, DataLine.done] =
      .ok ⟨"Hello", true, some "assistant", true, [], 0,
        [Resp.message "assistant" "Hel" [] false,
         Resp.message "assistant" "Hello" [] true, Resp.complete]⟩ ∧
    messageEmissions
        [Resp.message "assistant" "Hel" [] false,
         Resp.message "assistant" "Hello" [] true, Resp.complete] =
      [Resp.message "assistant" "Hel" [] false,
       Resp.message "assistant" "Hello" [] true] := by
  refine ⟨?_, rfl, rfl⟩
  intro env st p st' h
  obtain ⟨_, _, h3, h4, h5⟩ := processPayload_ok env st p st' h
  constructor
  · intro he
    obtain ⟨role, files, hr⟩ := h4 he
    exact ⟨role, files, hr, by rw [h3, he, Bool.or_true]⟩
  · intro he
    exact ⟨h5 he, by rw [h3, he, Bool.or_false]⟩

theorem C3_witness :
    emitSpec exEnv initStreamSt chunkHel = true ∧
    (⟨"Hel", true, some "assistant", false, [], 0,
        [Resp.message "assistant" "Hel" [] false]⟩ : StreamSt).responses ≠
      initStreamSt.responses := by
  refine ⟨rfl, ?_⟩
  obtain ⟨role, files, hr, _⟩ :=
    (C3_emission_policy.1 exEnv initStreamSt chunkHel
      ⟨"Hel", true, some "assistant", false, [], 0,
        [Resp.message "assistant" "Hel" [] false]⟩ rfl).1 rfl
  rw [hr]
  simp [initStreamSt]

/-- C4 (amended): for every stream whose first well-formed chunk is an
in-band error object with a message that is nonempty after trimming,
the run aborts by failing with exactly that message, the state before
the failing chunk is still the initial one (so no message emission
precedes the failure), and the catch block surfaces the message without
touching the session. -/
theorem C4_inband_error_aborts {Session : Type} (sess : Session) (env : StreamEnv)
    (pre rest : List DataLine) (m : String)
    (hpre : ∀ l ∈ pre, l = DataLine.malformed)
    (hm : jsTrim m ≠ "") :
    runStream env (pre ++ DataLine.payload (errChunkOf m) :: rest) = .error m ∧
    processDataLines env initStreamSt pre = .ok initStreamSt ∧
    handleStreamFailure sess m = (sess, Resp.errorSignal m) := by
  have hskip : ∀ (pr : List DataLine) (st : StreamSt), st.streamingFinished = false →
      (∀ l ∈ pr, l = DataLine.malformed) → processDataLines env st pr = .ok st := by
    intro pr
    induction pr with
    | nil => intro st _ _; rfl
    | cons l rest2 ih =>
      intro st hf hall
      have hl := hall l (List.mem_cons_self _ _)
      subst hl
      simp only [processDataLines]
      rw [if_neg (by simp [hf])]
      exact ih st hf (fun x hx => hall x (List.mem_cons_of_mem _ hx))
  have herr : ∀ (st : StreamSt), processPayload env st (errChunkOf m) = .error m := by
    intro st
    simp [processPayload, errChunkOf, jget, isObjectLike, hm]
  have hmain : ∀ (pr : List DataLine) (st : StreamSt), st.streamingFinished = false →
      (∀ l ∈ pr, l = DataLine.malformed) →
      processDataLines env st (pr ++ DataLine.payload (errChunkOf m) :: rest) =
        .error m := by
    intro pr
    induction pr with
    | nil =>
      intro st hf _
      simp only [List.nil_append, processDataLines]
      rw [if_neg (by simp [hf])]
      rw [herr st]
    | cons l pre2 ih =>
      intro st hf hall
      have hl := hall l (List.mem_cons_self _ _)
      subst hl
      simp only [List.cons_append, processDataLines]
      rw [if_neg (by simp [hf])]
      exact ih st hf (fun x hx => hall x (List.mem_cons_of_mem _ hx))
  refine ⟨?_, hskip pre initStreamSt rfl hpre, rfl⟩
  simp only [runStream, hmain pre initStreamSt rfl hpre]

theorem C4_witness :
    runStream exEnv
        [DataLine.malformed, DataLine.payload (errChunkOf "LLM provider error"),
         DataLine.done] =
      .error "LLM provider error" ∧
    handleStreamFailure (0 : Nat) "LLM provider error" =
      ((0 : Nat), Resp.errorSignal "LLM provider error") := by
  obtain ⟨h1, _, h3⟩ := C4_inband_error_aborts (0 : Nat) exEnv [DataLine.malformed]
    [DataLine.done] "LLM provider error" (by intro l hl; simpa using hl) (by decide)
  exact ⟨h1, h3⟩

/-- C4 counterexample to the claim as stated: the error.message string
consisting of one space is non-empty, yet the stream does not fail with
it verbatim - the generic localized fallback text is surfaced
instead. -/
theorem C4_counterexample :
    runStream exEnv [DataLine.payload (errChunkOf " ")] =
      .error "Ошибка, попробуйте ещё раз." ∧
    "Ошибка, попробуйте ещё раз." ≠ " " := by
  exact ⟨rfl, by decide⟩

end WebChat

namespace WebChat

theorem mapHas_append_self (m : List (String × MessageFile)) (k : String) (n : MessageFile) :
    mapHas (m ++ [(k, n)]) k = true := by
  simp [mapHas]

theorem mapHas_mono_append (m : List (String × MessageFile)) (x : String × MessageFile)
    (k : String) (h : mapHas m k = true) : mapHas (m ++ [x]) k = true := by
  simp [mapHas] at h ⊢
  exact Or.inl h

theorem upsertOne_fileMap (env : StreamEnv) (acc : StreamSt × Bool) (c : JVal) :
    (upsertOne env acc c).1.fileMap = acc.1.fileMap ∨
    ∃ x, (upsertOne env acc c).1.fileMap = acc.1.fileMap ++ [x] := by
  by_cases hobj : isObjectLike c = true
  · rcases hnf : normalizeStreamAttachmentFile env c acc.1.urlCounter with ⟨o, c2⟩
    cases o with
    | none => left; simp [upsertOne, hobj, hnf]
    | some n =>
      simp only [upsertOne, hobj, not_true, if_false, hnf]
      repeat' split
      all_goals first
        | (left; rfl)
        | (right; exact ⟨_, rfl⟩)
  · left; simp [upsertOne, hobj]

theorem mapHas_upsertOne (env : StreamEnv) (acc : StreamSt × Bool) (c : JVal) (k : String)
    (h : mapHas acc.1.fileMap k = true) :
    mapHas (upsertOne env acc c).1.fileMap k = true := by
  rcases upsertOne_fileMap env acc c with he | ⟨x, he⟩
  · rw [he]; exact h
  · rw [he]; exact mapHas_mono_append _ _ _ h

theorem mapHas_fold (env : StreamEnv) (items : List JVal) (acc : StreamSt × Bool) (k : String)
    (h : mapHas acc.1.fileMap k = true) :
    mapHas ((items.foldl (upsertOne env) acc).1.fileMap) k = true := by
  induction items generalizing acc with
  | nil => exact h
  | cons i items ih =>
    simp only [List.foldl_cons]
    exact ih (upsertOne env acc i) (mapHas_upsertOne env acc i k h)

theorem normalize_cases (env : StreamEnv) (a : JVal) (c : Nat) :
    (attHasFreshBlobSrc env a = true ∧
      (normalizeStreamAttachmentFile env a c).2 = c + 1 ∧
      ∃ n, (normalizeStreamAttachmentFile env a c).1 = some n ∧
        n.src = "blob:" ++ toString c) ∨
    (attHasFreshBlobSrc env a = false ∧
      (normalizeStreamAttachmentFile env a c).2 = c ∧
      (normalizeStreamAttachmentFile env a c).1 = (normalizeStreamAttachmentFile env a 0).1) := by
  by_cases h1 : jsTrim (getStrField a "download_url") = ""
  · right
    refine ⟨by simp [attHasFreshBlobSrc, h1], ?_, ?_⟩ <;>
      (simp [normalizeStreamAttachmentFile, h1]; try (split <;> rfl))
  · by_cases h2 : env.resolveUrl (jsTrim (getStrField a "download_url")) = ""
    · right
      refine ⟨by simp [attHasFreshBlobSrc, h1, h2], ?_, ?_⟩ <;>
        (simp [normalizeStreamAttachmentFile, h1, h2]; try (split <;> rfl))
    · by_cases h3 : env.isProtectedUrl (env.resolveUrl (jsTrim (getStrField a "download_url"))) = true
      · by_cases h4 : env.fetchOk (env.resolveUrl (jsTrim (getStrField a "download_url"))) = true
        · left
          refine ⟨by simp [attHasFreshBlobSrc, h1, h2, h3, h4], ?_, ?_⟩ <;>
            (simp [normalizeStreamAttachmentFile, h1, h2, h3, h4]; try (split <;> rfl))
        · right
          have h4f : env.fetchOk (env.resolveUrl (jsTrim (getStrField a "download_url"))) = false := by
            cases hx : env.fetchOk (env.resolveUrl (jsTrim (getStrField a "download_url")))
            · rfl
            · exact absurd hx h4
          refine ⟨by simp [attHasFreshBlobSrc, h1, h2, h3, h4f], ?_, ?_⟩ <;>
            (simp [normalizeStreamAttachmentFile, h1, h2, h3, h4f]; try (split <;> rfl))
      · have h3f : env.isProtectedUrl (env.resolveUrl (jsTrim (getStrField a "download_url"))) = false := by
          cases hx : env.isProtectedUrl (env.resolveUrl (jsTrim (getStrField a "download_url")))
          · rfl
          · exact absurd hx h3
        right
        refine ⟨by simp [attHasFreshBlobSrc, h1, h2, h3f], ?_, ?_⟩ <;>
          (simp [normalizeStreamAttachmentFile, h1, h2, h3f]; try (split <;> rfl))

end WebChat

namespace WebChat

theorem normalize_src_ne (env : StreamEnv) (a : JVal) (c : Nat) (n : MessageFile) (c2 : Nat)
    (h : normalizeStreamAttachmentFile env a c = (some n, c2)) : n.src ≠ "" := by
  simp only [normalizeStreamAttachmentFile] at h
  repeat' split at h
  all_goals simp_all [append_eq_empty_iff]
  all_goals first
    | assumption
    | (intro hs; subst hs; simp_all [append_eq_empty_iff])
    | (obtain ⟨rfl, -⟩ := h; dsimp only; first
        | assumption
        | (intro hs; subst hs; simp_all [append_eq_empty_iff]))

end WebChat

namespace WebChat

theorem runtime_key_eq (env : StreamEnv) (a : JVal) (c : Nat)
    (hobj : isObjectLike a = true)
    (hgood : attHasId a = true ∨ attHasFreshBlobSrc env a = false) :
    (match (normalizeStreamAttachmentFile env a c).1 with
     | none => attKey env a = none
     | some n =>
       attKey env a = some (if attHasId a then jsTrim (getStrField a "id") else n.src)) := by
  rcases normalize_cases env a c with ⟨hf, hsnd, n, hfst, hsrc⟩ | ⟨hf, hsnd, hfst⟩
  · have hid : attHasId a = true := by
      rcases hgood with hg | hg
      · exact hg
      · rw [hf] at hg; cases hg
    rw [hfst]
    rcases normalize_cases env a 0 with ⟨-, -, n0, hfst0, -⟩ | ⟨hf0, -, -⟩
    · simp [attKey, hobj, hfst0, hid]
    · rw [hf] at hf0; cases hf0
  · rw [hfst]
    cases h0 : (normalizeStreamAttachmentFile env a 0).1 with
    | none => simp [attKey, hobj, h0]
    | some n0 => simp [attKey, hobj, h0]

theorem upsertOne_ensures_key (env : StreamEnv) (st : StreamSt) (b : Bool) (a : JVal)
    (k : String)
    (hgood : attHasId a = true ∨ attHasFreshBlobSrc env a = false)
    (hk : attKey env a = some k) :
    mapHas (upsertOne env (st, b) a).1.fileMap k = true := by
  have hobj : isObjectLike a = true := by
    by_contra hno
    simp [attKey, hno] at hk
  have hrt := runtime_key_eq env a st.urlCounter hobj hgood
  have hm : (match jget a "id" with
      | some (.jstr s) => jsTrim s != ""
      | _ => false) = attHasId a := rfl
  rcases hnf : normalizeStreamAttachmentFile env a st.urlCounter with ⟨o, c2⟩
  cases o with
  | none =>
    rw [hnf] at hrt
    simp only at hrt
    rw [hrt] at hk
    cases hk
  | some n =>
    rw [hnf] at hrt
    simp only at hrt
    rw [hrt] at hk
    have hsrc := normalize_src_ne env a st.urlCounter n c2 hnf
    simp only [upsertOne, hobj, not_true, if_false, hnf, hm]
    rw [if_pos hsrc]
    obtain rfl : (if attHasId a = true then jsTrim (getStrField a "id") else n.src) = k := by
      cases hk; rfl
    by_cases hhas : mapHas st.fileMap
        (if attHasId a = true then jsTrim (getStrField a "id") else n.src) = true
    · rw [if_pos hhas]
      exact hhas
    · rw [if_neg hhas]
      exact mapHas_append_self _ _ _

theorem upsertOne_fileMap_stable (env : StreamEnv) (st : StreamSt) (b : Bool) (a : JVal)
    (hgood : attHasId a = true ∨ attHasFreshBlobSrc env a = false)
    (hpres : ∀ k, attKey env a = some k → mapHas st.fileMap k = true) :
    (upsertOne env (st, b) a).1.fileMap = st.fileMap := by
  by_cases hobj : isObjectLike a = true
  · have hrt := runtime_key_eq env a st.urlCounter hobj hgood
    have hm : (match jget a "id" with
        | some (.jstr s) => jsTrim s != ""
        | _ => false) = attHasId a := rfl
    rcases hnf : normalizeStreamAttachmentFile env a st.urlCounter with ⟨o, c2⟩
    cases o with
    | none => simp [upsertOne, hobj, hnf]
    | some n =>
      rw [hnf] at hrt
      simp only at hrt
      have hsrc := normalize_src_ne env a st.urlCounter n c2 hnf
      simp only [upsertOne, hobj, not_true, if_false, hnf, hm]
      rw [if_pos hsrc]
      rw [if_pos (hpres _ hrt)]
  · simp [upsertOne, hobj]

theorem upsertFold_ensures_keys (env : StreamEnv) (items : List JVal)
    (st : StreamSt) (b : Bool) (a : JVal) (k : String)
    (ha : a ∈ items)
    (hgood : ∀ x ∈ items, attHasId x = true ∨ attHasFreshBlobSrc env x = false)
    (hk : attKey env a = some k) :
    mapHas ((items.foldl (upsertOne env) (st, b)).1.fileMap) k = true := by
  induction items generalizing st b with
  | nil => cases ha
  | cons i items ih =>
    simp only [List.foldl_cons]
    rcases List.mem_cons.mp ha with rfl | hmem
    · rcases hacc : upsertOne env (st, b) a with ⟨st1, b1⟩
      have hbase : mapHas st1.fileMap k = true := by
        have := upsertOne_ensures_key env st b a k (hgood a ha) hk
        rw [hacc] at this
        exact this
      exact mapHas_fold env items (st1, b1) k hbase
    · rcases hacc : upsertOne env (st, b) i with ⟨st1, b1⟩
      exact ih st1 b1 hmem (fun x hx => hgood x (List.mem_cons_of_mem _ hx))

theorem upsertFold_stable (env : StreamEnv) (items : List JVal) (st : StreamSt) (b : Bool)
    (hgood : ∀ x ∈ items, attHasId x = true ∨ attHasFreshBlobSrc env x = false)
    (hpres : ∀ a ∈ items, ∀ k, attKey env a = some k → mapHas st.fileMap k = true) :
    (items.foldl (upsertOne env) (st, b)).1.fileMap = st.fileMap := by
  induction items generalizing st b with
  | nil => rfl
  | cons i items ih =>
    simp only [List.foldl_cons]
    rcases hacc : upsertOne env (st, b) i with ⟨st1, b1⟩
    have hstable : st1.fileMap = st.fileMap := by
      have := upsertOne_fileMap_stable env st b i (hgood i (List.mem_cons_self _ _))
        (hpres i (List.mem_cons_self _ _))
      rw [hacc] at this
      exact this
    have := ih st1 b1 (fun x hx => hgood x (List.mem_cons_of_mem _ hx))
      (fun a ha k hk => by
        rw [hstable]
        exact hpres a (List.mem_cons_of_mem _ ha) k hk)
    rw [this, hstable]

/-- C5 (amended): attachment merging is idempotent for payloads in
which every entry either carries a usable id or resolves to a
deterministic src (a non-protected download_url or a data URI); for
such payloads applying the same attachments array twice yields the same
attachment map as applying it once. (Entries that mint a fresh blob URL
on every application - protected download_url, successful fetch, no
id - are exactly the ones excluded by the counterexample.) -/
theorem C5_attachment_merge_idempotent (env : StreamEnv) (items : List JVal) (st : StreamSt)
    (hgood : ∀ a ∈ items, attHasId a = true ∨ attHasFreshBlobSrc env a = false) :
    (applyAttachments env (.jarr items)
        (applyAttachments env (.jarr items) st)).fileMap =
      (applyAttachments env (.jarr items) st).fileMap := by
  simp only [applyAttachments, upsertAssistantFiles]
  exact upsertFold_stable env items _ false hgood
    (fun a ha k hk => upsertFold_ensures_keys env items st false a k ha hgood hk)

theorem C5_witness :
    (applyAttachments exEnv
        (.jarr [JVal.jobj [("id", .jstr "a1"), ("filename", .jstr "f"),
          ("download_url", .jstr "/attachments/x")]])
        (applyAttachments exEnv
          (.jarr [JVal.jobj [("id", .jstr "a1"), ("filename", .jstr "f"),
            ("download_url", .jstr "/attachments/x")]]) initStreamSt)).fileMap =
      (applyAttachments exEnv
        (.jarr [JVal.jobj [("id", .jstr "a1"), ("filename", .jstr "f"),
          ("download_url", .jstr "/attachments/x")]]) initStreamSt).fileMap :=
  C5_attachment_merge_idempotent exEnv
    [JVal.jobj [("id", .jstr "a1"), ("filename", .jstr "f"),
      ("download_url", .jstr "/attachments/x")]] initStreamSt
    (by
      intro a ha
      simp only [List.mem_singleton] at ha
      subst ha
      left
      decide)

/-- C5 counterexample to the claim as stated: a protected attachment
record with no id resolves to a fresh blob URL on each delivery, so
applying the same attachments payload twice yields two map entries
(blob:0 and blob:1) where applying it once yields one. -/
theorem C5_counterexample :
    (applyAttachments exEnv (.jarr [protectedAtt])
        (applyAttachments exEnv (.jarr [protectedAtt]) initStreamSt)).fileMap ≠
      (applyAttachments exEnv (.jarr [protectedAtt]) initStreamSt).fileMap := by
  decide

end WebChat

namespace WebChat

theorem valid_refresh_truthy (now : Int) (s : AuthSt)
    (h : hasValidRefreshToken now s = true) : tokenTruthy s.refreshToken = true := by
  unfold hasValidRefreshToken at h
  unfold tokenTruthy
  cases ht : s.refreshToken with
  | none => rw [ht] at h; cases he : s.refreshTokenExpiresAt <;> rw [he] at h <;> simp at h
  | some t =>
    rw [ht] at h
    cases he : s.refreshTokenExpiresAt with
    | none => rw [he] at h; simp at h
    | some e =>
      rw [he] at h
      simp at h
      simp [h.1]

theorem refreshStart_inflight (now : Int) (s : AuthSt) (p : Nat)
    (hv : hasValidRefreshToken now s = true) (hp : s.refreshPromiseId = some p) :
    refreshStart now s = (s, .promiseOf p) := by
  unfold refreshStart
  rw [if_neg (by simp [hv, valid_refresh_truthy now s hv])]
  rw [hp]

theorem refreshCalls_inflight (now : Int) (s : AuthSt) (p : Nat) (n : Nat)
    (hv : hasValidRefreshToken now s = true) (hp : s.refreshPromiseId = some p) :
    refreshCalls now s n = (s, List.replicate n (.promiseOf p)) := by
  induction n with
  | zero => rfl
  | succ n ih =>
    simp only [refreshCalls, refreshStart_inflight now s p hv hp, ih]
    rfl

/-- C1: token refresh is single-flight: a call that observes an
in-flight refresh returns that same promise without touching the state
(so no second network call), a burst of concurrent calls starting with
no refresh in flight issues exactly one network call and hands every
caller the same promise, and the settlement of that one promise is the
outcome every caller observes - the new access token on success, that
single refresh error on failure. -/
theorem C1_refresh_single_flight :
    (∀ (now : Int) (s : AuthSt) (p : Nat),
      hasValidRefreshToken now s = true → s.refreshPromiseId = some p →
      refreshStart now s = (s, .promiseOf p)) ∧
    (∀ (now : Int) (s : AuthSt) (n : Nat),
      hasValidRefreshToken now s = true → s.refreshPromiseId = none →
      (refreshCalls now s (n + 1)).1.refreshNetworkCalls = s.refreshNetworkCalls + 1 ∧
      (refreshCalls now s (n + 1)).2 =
        List.replicate (n + 1) (RefreshStartResult.promiseOf s.nextPromiseId)) ∧
    (∀ (now : Int) (s : AuthSt) (tk : TokenResponse),
      (refreshSettle now (.ok tk) s).2 = .ok tk.access_token) ∧
    (∀ (now : Int) (s : AuthSt) (e : String),
      (refreshSettle now (.error e) s).2 = .error e) := by
  refine ⟨refreshStart_inflight, ?_, fun now s tk => rfl, fun now s e => rfl⟩
  intro now s n hv hp
  have hstart : refreshStart now s =
      Prod.mk
        { s with
            refreshPromiseId := some s.nextPromiseId,
            nextPromiseId := s.nextPromiseId + 1,
            refreshNetworkCalls := s.refreshNetworkCalls + 1 }
        (RefreshStartResult.promiseOf s.nextPromiseId) := by
    unfold refreshStart
    rw [if_neg (by simp [hv, valid_refresh_truthy now s hv])]
    rw [hp]
  have hv1 : hasValidRefreshToken now
      { s with
          refreshPromiseId := some s.nextPromiseId,
          nextPromiseId := s.nextPromiseId + 1,
          refreshNetworkCalls := s.refreshNetworkCalls + 1 } = true := hv
  simp only [refreshCalls, hstart,
    refreshCalls_inflight now _ s.nextPromiseId n hv1 rfl]
  refine ⟨?_, ?_⟩ <;> first
    | rfl
    | trivial
    | simp [List.replicate_succ]

theorem C1_witness :
    (refreshCalls 0 authStValid 3).1.refreshNetworkCalls =
      authStValid.refreshNetworkCalls + 1 ∧
    (refreshCalls 0 authStValid 3).2 =
      List.replicate 3 (RefreshStartResult.promiseOf authStValid.nextPromiseId) :=
  C1_refresh_single_flight.2.1 0 authStValid 2 (by decide) rfl

/-- C8: refreshTokens throws Session expired when no valid refresh
token is present, leaving the state untouched; and when the refresh
network call fails, it clears every persisted token/expiry field and
the profile, emits the auth:logout event, and re-raises the error. -/
theorem C8_refresh_failure_clears_session :
    (∀ (now : Int) (s : AuthSt),
      hasValidRefreshToken now s = false →
      refreshStart now s = (s, .sessionExpired)) ∧
    (∀ (now : Int) (s : AuthSt) (e : String),
      (refreshSettle now (.error e) s).2 = .error e ∧
      (refreshSettle now (.error e) s).1.accessToken = none ∧
      (refreshSettle now (.error e) s).1.refreshToken = none ∧
      (refreshSettle now (.error e) s).1.accessTokenExpiresAt = none ∧
      (refreshSettle now (.error e) s).1.refreshTokenExpiresAt = none ∧
      (refreshSettle now (.error e) s).1.profile = none ∧
      (refreshSettle now (.error e) s).1.storedAccess = none ∧
      (refreshSettle now (.error e) s).1.storedRefresh = none ∧
      (refreshSettle now (.error e) s).1.storedAccessExp = none ∧
      (refreshSettle now (.error e) s).1.storedRefreshExp = none ∧
      (refreshSettle now (.error e) s).1.events = s.events ++ ["auth:logout"]) := by
  constructor
  · intro now s h
    unfold refreshStart
    rw [if_pos (by simp [h])]
  · intro now s e
    simp [refreshSettle, emitEvent, clearPersistence, updateAuthenticationState,
      hasValidAccessToken, hasValidRefreshToken]

theorem C8_witness :
    refreshStart 0 blankAuthSt = (blankAuthSt, .sessionExpired) ∧
    (refreshSettle 0 (.error "netfail") authStValid).2 = .error "netfail" ∧
    (refreshSettle 0 (.error "netfail") authStValid).1.refreshToken = none ∧
    (refreshSettle 0 (.error "netfail") authStValid).1.events =
      authStValid.events ++ ["auth:logout"] := by
  obtain ⟨h1, h2⟩ := C8_refresh_failure_clears_session
  obtain ⟨g1, g2, g3, g4, g5, g6, g7, g8, g9, g10, g11⟩ := h2 0 authStValid "netfail"
  exact ⟨h1 0 blankAuthSt (by decide), g1, g3, g11⟩

end WebChat

namespace WebChat

/-- C6: persist(tokens, 900, 604800) followed by load() yields a valid
access token immediately and an invalid one once now exceeds the
persisted expiry; the persisted expiry is now + max(lifetime * 1000 -
5000, 5000) = now + 895000, and on the loaded state validity is exactly
token present and expiresAt - now > 5000. -/
theorem C6_persist_load_roundtrip (now : Int) (tokens : TokenResponse) (s : AuthSt)
    (hnow : 0 ≤ now)
    (htrim : jsTrim tokens.access_token = tokens.access_token)
    (hne : tokens.access_token ≠ "")
    (hacc : tokens.expires_in = 900) :
    (persistTokens now tokens s).accessTokenExpiresAt =
      some (now + max (900 * 1000 - TOKEN_EXPIRY_BUFFER_MS) TOKEN_EXPIRY_BUFFER_MS) ∧
    (persistTokens now tokens s).accessTokenExpiresAt = some (now + 895000) ∧
    (∀ now2 : Int,
      hasValidAccessToken now2 (loadStore now (persistTokens now tokens s)) =
        decide (now + 895000 - now2 > TOKEN_EXPIRY_BUFFER_MS)) ∧
    hasValidAccessToken now (loadStore now (persistTokens now tokens s)) = true ∧
    (∀ now2 : Int, now + 895000 < now2 →
      hasValidAccessToken now2 (loadStore now (persistTokens now tokens s)) = false) := by
  have hser : serializeToken (some tokens.access_token) = some tokens.access_token := by
    simp [serializeToken, hne, htrim]
  have hexp : max (tokens.expires_in * 1000 - TOKEN_EXPIRY_BUFFER_MS)
      TOKEN_EXPIRY_BUFFER_MS = 895000 := by
    rw [hacc]
    decide
  have htok : (persistTokens now tokens s).accessToken = some tokens.access_token := by
    simp [persistTokens, updateAuthenticationState, hser]
  have hexpat : (persistTokens now tokens s).accessTokenExpiresAt = some (now + 895000) := by
    simp [persistTokens, updateAuthenticationState, hexp]
  have hstored : (persistTokens now tokens s).storedAccess = some tokens.access_token := by
    simp [persistTokens, updateAuthenticationState, hser, tokenTruthy, hne]
  have hstoredexp : (persistTokens now tokens s).storedAccessExp = some (now + 895000) := by
    simp [persistTokens, updateAuthenticationState, hexp]
  have hltok : (loadStore now (persistTokens now tokens s)).accessToken =
      some tokens.access_token := by
    simp [loadStore, updateAuthenticationState, hstored, hser]
  have hlexp : (loadStore now (persistTokens now tokens s)).accessTokenExpiresAt =
      some (now + 895000) := by
    simp [loadStore, updateAuthenticationState, hstoredexp]
  have hval : ∀ now2 : Int,
      hasValidAccessToken now2 (loadStore now (persistTokens now tokens s)) =
        decide (now + 895000 - now2 > TOKEN_EXPIRY_BUFFER_MS) := by
    intro now2
    rw [hasValidAccessToken, hltok, hlexp]
    have h1 : (tokens.access_token != "") = true := by simp [hne]
    have h2 : ((now + 895000 : Int) != 0) = true := by
      simp only [bne_iff_ne, ne_eq]
      omega
    dsimp only
    rw [h1, h2]
    simp
  refine ⟨?_, hexpat, hval, ?_, ?_⟩
  · rw [hexpat, hexp.symm, hacc]
  · rw [hval now]
    simp only [TOKEN_EXPIRY_BUFFER_MS, decide_eq_true_eq]
    omega
  · intro now2 hgt
    rw [hval now2]
    simp only [TOKEN_EXPIRY_BUFFER_MS, decide_eq_false_iff_not]
    omega

theorem C6_witness :
    hasValidAccessToken 0
      (loadStore 0 (persistTokens 0 ⟨"tok", "ref", 900, 604800⟩ blankAuthSt)) = true ∧
    hasValidAccessToken 900000
      (loadStore 0 (persistTokens 0 ⟨"tok", "ref", 900, 604800⟩ blankAuthSt)) = false := by
  obtain ⟨-, -, -, h4, h5⟩ := C6_persist_load_roundtrip 0 ⟨"tok", "ref", 900, 604800⟩
    blankAuthSt (by decide) (by decide) (by decide) rfl
  exact ⟨h4, h5 900000 (by decide)⟩

/-- C7: no request is retried more than once after a 401: a request
already marked as a retry has its 401 propagated without any further
refresh; every request reissued by the interceptor (by the queue drain
or by the refresher) carries the retry mark; and authorizedFetch makes
at most two fetches and at most one refresh per call, returning the
second response as is even when it is again a 401. -/
theorem C7_no_double_retry :
    (∀ (c : AxiosCfg) (gw : GwSt) (hasTok : Bool),
      c.isRetry = true →
      respInterceptor401 true 401 (some c) hasTok gw = (gw, .reject)) ∧
    (∀ (gw : GwSt) (t : String) (r : Except Unit AxiosCfg),
      r ∈ (processQueue false (some t) gw).2 → ∀ c, r = .ok c → c.isRetry = true) ∧
    (∀ (c : AxiosCfg) (gw : GwSt),
      c.isRetry = false → c.skipRefresh = false → gw.isRefreshing = false →
      respInterceptor401 true 401 (some c) true gw =
        ({ gw with isRefreshing := true }, .refresh { c with isRetry := true })) ∧
    (∀ (allowRetry refreshValid : Bool) (ro : Except String String) (s1 s2 : Nat),
      (authorizedFetch allowRetry refreshValid ro s1 s2).fetchCount ≤ 2 ∧
      (authorizedFetch allowRetry refreshValid ro s1 s2).refreshCount ≤ 1) ∧
    (∀ (t : String) (s2 : Nat),
      authorizedFetch true true (.ok t) 401 s2 = ⟨.ok s2, 2, 1, false⟩) := by
  refine ⟨?_, ?_, ?_, ?_, ?_⟩
  · intro c gw hasTok hr
    simp [respInterceptor401, hr]
  · intro gw t r hmem c hc
    simp only [processQueue, List.mem_map] at hmem
    obtain ⟨c0, -, hc0⟩ := hmem
    rw [← hc0] at hc
    simp at hc
    rw [← hc]
  · intro c gw hr hs hg
    simp [respInterceptor401, hr, hs, hg]
  · intro allowRetry refreshValid ro s1 s2
    unfold authorizedFetch
    repeat' split
    all_goals simp
  · intro t s2
    rfl

theorem C7_witness :
    respInterceptor401 true 401 (some ⟨true, false, some "tk"⟩) true ⟨false, []⟩ =
      (⟨false, []⟩, .reject) ∧
    (authorizedFetch true true (.ok "new") 401 401).refreshCount ≤ 1 := by
  exact ⟨C7_no_double_retry.1 ⟨true, false, some "tk"⟩ ⟨false, []⟩ true rfl,
    (C7_no_double_retry.2.2.2.1 true true (.ok "new") 401 401).2⟩

/-- C9: history hydration is last-request-wins: when a newer hydration
starts before an older one completes, the older completion never writes
the displayed history and only revokes its own blob URLs, and after
both settle - in either completion order - the displayed history and
the active blob URLs are the newer request's, with every URL of the
older request revoked. -/
theorem C9_hydration_last_request_wins {H : Type} (s0 : HydrationSt H)
    (phA phB resA resB : H) (pA pB : List String) (order : Bool) :
    (completeHydration (startHydration phA s0).2 pA resA
        (startHydration phB (startHydration phA s0).1).1).displayed =
      (startHydration phB (startHydration phA s0).1).1.displayed ∧
    (completeHydration (startHydration phA s0).2 pA resA
        (startHydration phB (startHydration phA s0).1).1).activeUrls =
      (startHydration phB (startHydration phA s0).1).1.activeUrls ∧
    (if order then
        completeHydration (startHydration phB (startHydration phA s0).1).2 pB resB
          (completeHydration (startHydration phA s0).2 pA resA
            (startHydration phB (startHydration phA s0).1).1)
      else
        completeHydration (startHydration phA s0).2 pA resA
          (completeHydration (startHydration phB (startHydration phA s0).1).2 pB resB
            (startHydration phB (startHydration phA s0).1).1)).displayed = resB ∧
    (if order then
        completeHydration (startHydration phB (startHydration phA s0).1).2 pB resB
          (completeHydration (startHydration phA s0).2 pA resA
            (startHydration phB (startHydration phA s0).1).1)
      else
        completeHydration (startHydration phA s0).2 pA resA
          (completeHydration (startHydration phB (startHydration phA s0).1).2 pB resB
            (startHydration phB (startHydration phA s0).1).1)).activeUrls = pB ∧
    (pA.all (fun u =>
        (if order then
            completeHydration (startHydration phB (startHydration phA s0).1).2 pB resB
              (completeHydration (startHydration phA s0).2 pA resA
                (startHydration phB (startHydration phA s0).1).1)
          else
            completeHydration (startHydration phA s0).2 pA resA
              (completeHydration (startHydration phB (startHydration phA s0).1).2 pB resB
                (startHydration phB (startHydration phA s0).1).1)).revokedUrls.contains u)) =
      true := by
  have hne : s0.historyToken + 1 ≠ s0.historyToken + 1 + 1 := by omega
  cases order <;>
    simp [startHydration, completeHydration, hne, List.all_eq_true, List.contains,
      List.elem_eq_mem] <;>
    intro u hu <;> simp [hu]

/-- C10: a submitted chat payload whose text is empty or whitespace-only
leads to no streaming request at all when there are no attachments, and
to the literal text Process as expected. when attachments are
present. -/
theorem C10_empty_text_gate {A : Type} (threadId : String) (textMessage : Option String)
    (attachments : List A)
    (h : jsTrim (match textMessage with | some t => t | none => "") = "") :
    (attachments = [] →
      connectHandlerSend (some threadId) textMessage attachments = none) ∧
    (attachments ≠ [] →
      connectHandlerSend (some threadId) textMessage attachments =
        some ("Process as expected.", attachments)) := by
  constructor
  · intro ha
    subst ha
    simp [connectHandlerSend, h]
  · intro ha
    simp [connectHandlerSend, h, ha]

theorem C10_witness :
    connectHandlerSend (some "t1") (some "   ") ([] : List Nat) = none ∧
    connectHandlerSend (some "t1") (some "   ") [(1 : Nat)] =
      some ("Process as expected.", [1]) :=
  ⟨(C10_empty_text_gate "t1" (some "   ") ([] : List Nat) (by decide)).1 rfl,
   (C10_empty_text_gate "t1" (some "   ") [(1 : Nat)] (by decide)).2 (by simp)⟩

end WebChat
